import Mathlib

/-!
Shallow embedding of `src/inputParser.ts` of the jsPDF-AutoTable fork under
verification: the input-resolution core that turns user table settings into a
fully positioned, styled and sized grid model.

Widths are modelled as rationals (`Rat`); JavaScript objects holding style
properties are modelled as functions from a finite key type to optional
values, so that `Object.assign` becomes a key-by-key right-biased merge;
JavaScript objects used as dictionaries (row cell maps, the span ledger,
`columnStyles`) are modelled as association lists with overwrite-on-set
semantics.  External collaborators that live outside `src/`
(text measurement `getStringWidth`, `state().scaleFactor`, theme lookup
`getTheme` from config.ts, `defaultStyles`, page geometry) are abstract
fields of a context structure `Ctx`, matching the spec's instruction that
measurement and theme lookup are consumed through abstract functions.
-/

set_option linter.unusedVariables false

namespace AutoTable

/-- Generic first-match lookup in an association list (models reading a
property of a JavaScript object used as a dictionary). -/
def lookupA {α β : Type} [DecidableEq α] : List (α × β) → α → Option β
  | [], _ => none
  | (k, v) :: rest, key => if key = k then some v else lookupA rest key

/-- Generic overwrite-or-append update of an association list (models
assigning a property of a JavaScript object used as a dictionary). -/
def setA {α β : Type} [DecidableEq α] : List (α × β) → α → β → List (α × β)
  | [], key, v => [(key, v)]
  | (k, w) :: rest, key, v =>
    if key = k then (key, v) :: rest else (k, w) :: setA rest key v

/-- Indexing a list by a possibly negative JavaScript array index:
`l[i]` is `undefined` for `i < 0` or `i ≥ l.length`. -/
def getIntIdx {α : Type} (l : List α) (i : Int) : Option α :=
  if i < 0 then none else l.get? i.toNat

/-- Column identity: either an explicit string key or a numeric (positional)
key, as produced by `getTableColumns`. -/
inductive DataKey where
  | str (s : String)
  | idx (n : Nat)
deriving DecidableEq

/-- String coercion of a column identity, as JavaScript coerces object keys. -/
def dkToString : DataKey → String
  | .str s => s
  | .idx n => toString n

/-- The finite universe of style property names the embedding tracks.  The
source manipulates whole style objects generically; the claims only inspect
`cellWidth` and `minCellWidth`, the remaining keys witness that the cascade
is a key-by-key merge. -/
inductive StyleKey where
  | cellWidth
  | minCellWidth
  | fillColor
  | textColor
  | fontSize
  | cellPadding
  | fontStyleName
  | halign
deriving DecidableEq

instance : Fintype StyleKey where
  elems := {StyleKey.cellWidth, StyleKey.minCellWidth, StyleKey.fillColor,
    StyleKey.textColor, StyleKey.fontSize, StyleKey.cellPadding,
    StyleKey.fontStyleName, StyleKey.halign}
  complete := by intro k; cases k <;> decide

/-- A style property value: a number or a string (for example the
`cellWidth` mode strings). -/
inductive StyleVal where
  | num (q : Rat)
  | str (s : String)
deriving DecidableEq

/-- A style object: a partial assignment of values to style keys. -/
abbrev Style := StyleKey → Option StyleVal

/-- The empty style object `{}`. -/
def emptyStyle : Style := fun _ => none

/-- Right-biased choice on optional values, the per-key action of
`Object.assign`. -/
def orE {α : Type} : Option α → Option α → Option α
  | some v, _ => some v
  | none, b => b

/-- Shallow merge of two style objects: `assign2 a b` is
`Object.assign({}, a, b)` — keys of `b` override keys of `a`. -/
def assign2 (a b : Style) : Style := fun k => orE (b k) (a k)

/-- Left fold of `assign2`, modelling `assign(base, ...sources)` from
polyfills.ts: later sources override earlier ones key by key. -/
def assignL (base : Style) (sources : List Style) : Style :=
  sources.foldl assign2 base

/-- Row sections of a table. -/
inductive Section where
  | head
  | body
  | foot
deriving DecidableEq

/-- A theme as returned by `getTheme` in config.ts: one style object for the
whole table, one per section, and one for alternate rows. -/
structure Theme where
  table : Style
  headSt : Style
  bodySt : Style
  footSt : Style
  alternateRow : Style

/-- Section-indexed access `theme[sectionName]`. -/
def Theme.forSection (t : Theme) : Section → Style
  | .head => t.headSt
  | .body => t.bodySt
  | .foot => t.footSt

/-- A raw cell value in user input: a scalar, or a rich object
`{content, colSpan, rowSpan, styles}` (interfaces.ts `CellDef`).  Absent
object fields are `none`. -/
inductive CellInput where
  | scalar (v : String)
  | rich (content : Option String) (colSpan rowSpan : Option Int)
      (styles : Option Style)
deriving DecidableEq

/-- JavaScript truthiness of a raw cell value: the empty string is falsy,
a non-empty string and any object are truthy. -/
def cellInputTruthy : CellInput → Bool
  | .scalar v => v ≠ ("")
  | .rich _ _ _ _ => true

/-- A raw row in user input: array-shaped (positional) or object-shaped
(keyed by strings, as all JavaScript object keys are strings). -/
inductive RowInput where
  | arr (cells : List CellInput)
  | obj (kv : List (String × CellInput))
deriving DecidableEq

/-- An explicit column descriptor from `settings.columns`: either a plain
scalar (v2-style column title) or an object `{dataKey, key, header, footer}`. -/
inductive ColumnInput where
  | plain (v : String)
  | desc (dataKey : Option DataKey) (key : Option DataKey)
      (header : Option CellInput) (footer : Option CellInput)
deriving DecidableEq

/-- Cell text before normalization: a single string or an array of lines
(line 229 of inputParser.ts normalizes to an array). -/
inductive TextVal where
  | s (v : String)
  | arr (v : List String)
deriving DecidableEq

/-- Normalization `Array.isArray(text) ? text : [text]`. -/
def normText : TextVal → List String
  | .s v => [v]
  | .arr v => v

/-- A grid cell.  Width fields start at 0 and are filled by the width
resolution pass. -/
structure Cell where
  raw : Option CellInput
  text : TextVal
  sectionName : Section
  styles : Style
  colSpan : Int
  rowSpan : Int
  contentWidth : Rat
  minReadableWidth : Rat
  minWidth : Rat
  wrappedWidth : Rat
deriving DecidableEq

/-- A row: its raw input, its index within its section, its section, and its
cell map.  The source stores each created cell under both the column
`dataKey` and the column `index`; the map is keyed by `DataKey` so that both
aliases are present. -/
structure Row where
  raw : RowInput
  index : Nat
  sectionName : Section
  cells : List (DataKey × Cell)
deriving DecidableEq

/-- A column: the raw descriptor it came from (`none` when columns were
inferred from row shape, in which case the source stores the generated id
there and never reads it again), its identity, its table position, and the
aggregated widths, all starting at 0 as in the `Column` constructor. -/
structure Column where
  raw : Option ColumnInput
  dataKey : DataKey
  index : Nat
  minWidth : Rat
  wrappedWidth : Rat
  minReadableWidth : Rat
deriving DecidableEq

/-- Construct a fresh column as `new Column(dataKey, raw, index)`. -/
def mkColumn (dk : DataKey) (raw : Option ColumnInput) (index : Nat) : Column :=
  ⟨raw, dk, index, 0, 0, 0⟩

/-- The merged style scopes carried by the table (`StylesProps`). -/
structure StylesProps where
  styles : Style
  headStyles : Style
  bodyStyles : Style
  footStyles : Style
  alternateRowStyles : Style
  columnStyles : List (String × Style)

/-- Section-indexed access `table.styles[sectionName + "Styles"]`. -/
def StylesProps.forSection (sp : StylesProps) : Section → Style
  | .head => sp.headStyles
  | .body => sp.bodyStyles
  | .foot => sp.footStyles

/-- The `didParseCell` hook shape: it receives the cell, its row and its
column and may mutate the cell (modelled as returning the updated cell).
Modelled from the spec: `callCellHooks` lives in models.ts, outside `src/`;
the spec states hooks are synchronous, run in registration order once per
cell, and that their mutation is visible to the following width computation. -/
abbrev CellHook := Cell → Row → Column → Cell

/-- The `tableWidth` setting: a number, the string `wrap`, or anything else
(the `auto` default). -/
inductive TableWidthOpt where
  | num (q : Rat)
  | wrapMode
  | autoMode
deriving DecidableEq

/-- The `startY` setting: a number, `false`, or absent/null. -/
inductive StartYOpt where
  | num (q : Rat)
  | fal
  | nothing
deriving DecidableEq

/-- Resolved page margins. -/
structure Margin where
  top : Rat
  right : Rat
  bottom : Rat
  left : Rat
deriving DecidableEq

/-- The validated, merged settings object consumed by `parseContent`,
restricted to the fields the resolution core reads. -/
structure UserOptions where
  columns : Option (List ColumnInput)
  head : List RowInput
  body : List RowInput
  foot : List RowInput
  theme : String
  useCss : Bool
  tableWidth : TableWidthOpt
  startY : StartYOpt
  margin : Margin
  stylesOpt : StylesProps
  didParseCell : List CellHook

/-- Information about the previous table on the document
(`doc.previousAutoTable`), read by `getStartY`. -/
structure PrevTable where
  startPageNumber : Int
  pageNumber : Int
  finalY : Rat

/-- The abstract host context: text measurement, scale factor, page
geometry, word splitting (`split(/\s+/)`), horizontal cell padding
(`cell.padding('horizontal')` from common.ts, a function of the resolved
style), theme lookup and the base default style from config.ts. -/
structure Ctx where
  measure : List String → Style → Rat
  scaleFactor : Rat
  pageWidth : Rat
  pageNumber : Int
  previous : Option PrevTable
  padH : Style → Rat
  splitWs : String → List String
  getTheme : String → Theme
  defaultStyles : Style

/-- JavaScript truthiness of a style value (`cellWidth &&`,
`styles.minCellWidth ||`): the number 0 and the empty string are falsy. -/
def styleValTruthy : StyleVal → Bool
  | .num q => q ≠ 0
  | .str s => s ≠ ("")

/-- Column style lookup
`table.styles.columnStyles[column.dataKey] || table.styles.columnStyles[column.index] || {}`;
object keys are strings, so both probes are string-coerced, and a present but
empty style object is truthy and shadows the index probe. -/
def lookupColumnStyles (cs : List (String × Style)) (col : Column) : Style :=
  match orE (lookupA cs (dkToString col.dataKey)) (lookupA cs (toString col.index)) with
  | some st => st
  | none => emptyStyle

/-- Shallow embedding of `cellStyles` (inputParser.ts lines 352–371): merge
the base default style, the theme's table style, the theme's section style,
the user's global styles, the user's section styles, then — body section on
even row indices only — the user's `alternateRowStyles` over the theme's
alternate-row style, then — body section only — the column styles. -/
def cellStyles (ctx : Ctx) (sp : StylesProps) (themeName : String)
    (sectionName : Section) (col : Column) (rowIndex : Nat) : Style :=
  let theme := ctx.getTheme themeName
  let otherStyles := [theme.table, theme.forSection sectionName, sp.styles,
    sp.forSection sectionName]
  let columnStyles := lookupColumnStyles sp.columnStyles col
  let colStyles := if sectionName = Section.body then columnStyles else emptyStyle
  let rowStyles :=
    if sectionName = Section.body ∧ rowIndex % 2 = 0 then
      assign2 theme.alternateRow sp.alternateRowStyles
    else emptyStyle
  assignL ctx.defaultStyles (otherStyles ++ [rowStyles, colStyles])

/-- Modelled from the spec: the `Cell` constructor lives in models.ts, which
is not under `src/`.  Per the spec's data model and input shape, a raw cell
value is a scalar or an object carrying `{content, colSpan, rowSpan, styles}`;
`colSpan`/`rowSpan` default to 1 when absent but are otherwise not clamped
(zero or negative span values pass through, §9); per-cell `styles` merge
shallowly over the cascade result; a missing raw value yields a cell with
empty text. -/
def mkCell (raw : Option CellInput) (styles : Style) (sectionName : Section) : Cell :=
  match raw with
  | none =>
    ⟨none, TextVal.s (""), sectionName, styles, 1, 1, 0, 0, 0, 0⟩
  | some (.scalar v) =>
    ⟨some (.scalar v), TextVal.s v, sectionName, styles, 1, 1, 0, 0, 0, 0⟩
  | some (.rich c cs rs st) =>
    let effStyles := match st with
      | some s => assign2 styles s
      | none => styles
    ⟨some (.rich c cs rs st), TextVal.s (match c with | some v => v | none => ("")),
      sectionName, effStyles, cs.getD 1, rs.getD 1, 0, 0, 0, 0⟩

/-- The transient per-section span ledger `rowSpansLeftForColumn`, keyed by
column index: `(left, times)` = remaining row-span coverage and the
column-span width the covering cell claims. -/
abbrev Ledger := List (Nat × (Int × Int))

/-- The mutable state of one row's column loop (inputParser.ts lines
179–221): the ledger, the cell map built so far, and the three counters
`skippedRowForRowSpans`, `colSpansAdded`, `columnSpansLeft`. -/
structure RowState where
  ledger : Ledger
  cells : List (DataKey × Cell)
  skipped : Int
  colSpansAdded : Int
  columnSpansLeft : Int

/-- The fixed parameters of one row's column loop. -/
structure RowCtx where
  ctx : Ctx
  sp : StylesProps
  themeName : String
  sectionName : Section
  rowIndex : Nat
  rawRow : RowInput

/-- Resolving the raw value for a column: array rows are indexed at
`column.index - colSpansAdded - skippedRowForRowSpans`, object rows are
keyed by the string coercion of `column.dataKey`. -/
def rawCellLookup (P : RowCtx) (col : Column) (st : RowState) : Option CellInput :=
  match P.rawRow with
  | .arr l => getIntIdx l ((col.index : Int) - st.colSpansAdded - st.skipped)
  | .obj kv => lookupA kv (dkToString col.dataKey)

/-- One column step when no row-span claim is active (`left` absent or 0):
if no column-span claim is active either, create the cell, store it under
both the column `dataKey` and the column `index`, and seed the ledger;
otherwise consume one column-span slot. -/
def stepClear (P : RowCtx) (col : Column) (st : RowState) : RowState :=
  if st.columnSpansLeft = 0 then
    let rawCell := rawCellLookup P col st
    let styles := cellStyles P.ctx P.sp P.themeName P.sectionName col P.rowIndex
    let cell := mkCell rawCell styles P.sectionName
    { st with
      cells := setA (setA st.cells col.dataKey cell) (DataKey.idx col.index) cell
      columnSpansLeft := cell.colSpan - 1
      ledger := setA st.ledger col.index (cell.rowSpan - 1, cell.colSpan - 1) }
  else
    { st with
      columnSpansLeft := st.columnSpansLeft - 1
      colSpansAdded := st.colSpansAdded + 1 }

/-- One column step of the grid builder: a live row-span claim
(`left ≠ 0`) is consumed (decrement `left`, restore `columnSpansLeft` from
`times`, count a skip); otherwise proceed with `stepClear`. -/
def stepColumn (P : RowCtx) (col : Column) (st : RowState) : RowState :=
  match lookupA st.ledger col.index with
  | some (l, t) =>
    if l = 0 then stepClear P col st
    else
      { st with
        ledger := setA st.ledger col.index (l - 1, t)
        columnSpansLeft := t
        skipped := st.skipped + 1 }
  | none => stepClear P col st

/-- The column loop of one row. -/
def processColumns (P : RowCtx) : List Column → RowState → RowState
  | [], st => st
  | col :: rest, st => processColumns P rest (stepColumn P col st)

/-- The row loop of one section: each row starts with fresh counters and an
empty cell map, while the ledger threads from row to row; fresh per section. -/
def buildRows (ctx : Ctx) (sp : StylesProps) (themeName : String)
    (sectionName : Section) (cols : List Column) :
    List RowInput → Nat → Ledger → List Row
  | [], _, _ => []
  | raw :: rest, idx, led =>
    let st := processColumns ⟨ctx, sp, themeName, sectionName, idx, raw⟩ cols
      ⟨led, [], 0, 0, 0⟩
    ⟨raw, idx, sectionName, st.cells⟩ ::
      buildRows ctx sp themeName sectionName cols rest (idx + 1) st.ledger

/-- JavaScript truthiness of an optional column identity (`input.dataKey ||
input.key || index`): the number 0 and the empty string are falsy. -/
def dkTruthy : Option DataKey → Option DataKey
  | some (.str s) => if s = ("") then none else some (.str s)
  | some (.idx n) => if n = 0 then none else some (.idx n)
  | none => none

/-- The identity key of an explicit column descriptor:
`input.dataKey || input.key || index`. -/
def columnInputKey (input : ColumnInput) (index : Nat) : DataKey :=
  match input with
  | .plain _ => DataKey.idx index
  | .desc dk k _ _ =>
    match orE (dkTruthy dk) (dkTruthy k) with
    | some d => d
    | none => DataKey.idx index

/-- The explicit branch of `getTableColumns`:
`settings.columns.map((input, index) => new Column(key, input, index))`. -/
def mkColumnsExplicit : List ColumnInput → Nat → List Column
  | [], _ => []
  | input :: rest, index =>
    mkColumn (columnInputKey input index) (some input) index ::
      mkColumnsExplicit rest (index + 1)

/-- The keys of the first row, in order: array rows enumerate positions as
strings (as `Object.keys` does for a JavaScript array), object rows list
their keys. -/
def rowInputKeys : RowInput → List String
  | .arr l => (List.range l.length).map toString
  | .obj kv => kv.map Prod.fst

/-- Property access `firstRow[key]` on the first row, with array rows keyed
by numeric strings. -/
def rowInputGet : RowInput → String → Option CellInput
  | .arr l, key => match (List.range l.length).findIdx? (fun i => toString i = key) with
    | some i => l.get? i
    | none => none
  | .obj kv, key => lookupA kv key

/-- The declared column span of a first-row cell used during column
inference: `firstRow[key] && firstRow[key].colSpan ? firstRow[key].colSpan : 1`
(truthiness: absent, scalar, and zero spans all give 1). -/
def inferColSpan (c : Option CellInput) : Int :=
  match c with
  | some (.rich _ (some cs) _ _) => if cs = 0 then 1 else cs
  | _ => 1

/-- Sibling column identities during inference: array rows use the running
column count, object rows use `key`, `key_1`, `key_2`, …. -/
def inferId (isArr : Bool) (key : String) (i : Nat) (count : Nat) : DataKey :=
  if isArr then DataKey.idx count
  else DataKey.str (key ++ (if i > 0 then ("_") ++ toString i else ("")))

/-- Pushing the sibling columns of one inferred key: the inner
`for (let i = 0; i < colSpan; i++)` loop, which runs `max(colSpan, 0)`
times.  The first argument is the remaining iteration count, `i` the loop
counter, `count` the running `columns.length`. -/
def pushSiblings (isArr : Bool) (key : String) : Nat → Nat → Nat → List Column
  | 0, _, _ => []
  | Nat.succ fuel, i, count =>
    mkColumn (inferId isArr key i count) none count ::
      pushSiblings isArr key fuel (i + 1) (count + 1)

/-- The inference loop over the first row's keys (excluding `_element`). -/
def inferColumnsAux (fr : RowInput) : List String → Nat → List Column
  | [], _ => []
  | key :: rest, count =>
    let span := inferColSpan (rowInputGet fr key)
    let sibs := pushSiblings (match fr with | .arr _ => true | .obj _ => false)
      key span.toNat 0 count
    sibs ++ inferColumnsAux fr rest (count + sibs.length)

/-- Shallow embedding of `getTableColumns` (inputParser.ts lines 323–350):
explicit descriptors map to columns directly; otherwise columns are inferred
from `settings.head[0] || settings.body[0] || settings.foot[0] || []`. -/
def getTableColumns (s : UserOptions) : List Column :=
  match s.columns with
  | some cl => mkColumnsExplicit cl 0
  | none =>
    let fr := match s.head.head? with
      | some r => r
      | none => match s.body.head? with
        | some r => r
        | none => match s.foot.head? with
          | some r => r
          | none => RowInput.arr []
    inferColumnsAux fr ((rowInputKeys fr).filter (fun k => k ≠ ("_element"))) 0

/-- View of a column descriptor as a raw cell value, for the v2-style
fallback `val = columnData.header ? columnData.header : columnData` where
the descriptor itself becomes the cell content: a plain scalar descriptor is
a scalar cell, an object descriptor is an object with no content field. -/
def colInputAsCell : ColumnInput → CellInput
  | .plain v => CellInput.scalar v
  | .desc _ _ _ _ => CellInput.rich none none none none

/-- The head value contributed by one column:
`columnData && columnData.header ? columnData.header : columnData`. -/
def columnHeadVal (ci : ColumnInput) : CellInput :=
  match ci with
  | .plain v => CellInput.scalar v
  | .desc dk k h f =>
    match h with
    | some hv => if cellInputTruthy hv then hv else colInputAsCell (.desc dk k h f)
    | none => colInputAsCell (.desc dk k h f)

/-- The foot value contributed by one column, when truthy
(`columnData.footer`). -/
def columnFootVal (ci : ColumnInput) : Option CellInput :=
  match ci with
  | .plain _ => none
  | .desc _ _ _ f =>
    match f with
    | some fv => if cellInputTruthy fv then some fv else none
    | none => none

/-- The loop body of `generateSectionRowFromColumnData`, accumulating the
synthesized keyed row.  Columns whose `raw` is `none` contribute nothing:
such columns only arise from shape inference, and the source reaches this
function only when explicit columns exist. -/
def genSectionAux (sectionName : Section) :
    List Column → List (String × CellInput) → List (String × CellInput)
  | [], acc => acc
  | col :: rest, acc =>
    let acc1 := match col.raw with
      | none => acc
      | some ci =>
        match sectionName with
        | .head =>
          let v := columnHeadVal ci
          if cellInputTruthy v then setA acc (dkToString col.dataKey) v else acc
        | .foot =>
          match columnFootVal ci with
          | some fv => setA acc (dkToString col.dataKey) fv
          | none => acc
        | .body => acc
    genSectionAux sectionName rest acc1

/-- Shallow embedding of `generateSectionRowFromColumnData` (inputParser.ts
lines 303–321): a keyed row holding each column's header/footer value, or
`none` when no column contributed one. -/
def generateSectionRowFromColumnData (cols : List Column) (sectionName : Section) :
    Option RowInput :=
  let kv := genSectionAux sectionName cols []
  if kv.length > 0 then some (RowInput.obj kv) else none

/-- The effective raw row list of one section (inputParser.ts lines
167–178): when the section is empty, `settings.columns` is present, and the
section is not the body, a row synthesized from column data is appended. -/
def sectionRowInputs (s : UserOptions) (cols : List Column)
    (sectionName : Section) (raws : List RowInput) : List RowInput :=
  if raws.length = 0 ∧ s.columns.isSome ∧ sectionName ≠ Section.body then
    match generateSectionRowFromColumnData cols sectionName with
    | some r => [r]
    | none => raws
  else raws

/-- Application of the registered `didParseCell` hooks to one cell, in
order.  Modelled from the spec: `callCellHooks` lives in models.ts, outside
`src/`; per the spec, hooks run synchronously in registration order once per
cell and their mutations are visible to the following width computation. -/
def applyHooks (hooks : List CellHook) (cell : Cell) (row : Row) (col : Column) : Cell :=
  hooks.foldl (fun c h => h c row col) cell

/-- The `auto` mode minimum width
`cell.styles.minCellWidth || 10 / state().scaleFactor()`: the explicit
minimum when truthy, else the default floor. -/
def autoMinWidth (ctx : Ctx) (st : Style) : Rat :=
  let defaultMinWidth := 10 / ctx.scaleFactor
  match st StyleKey.minCellWidth with
  | some v =>
    if styleValTruthy v then
      (match v with | .num q => q | .str _ => defaultMinWidth)
    else defaultMinWidth
  | none => defaultMinWidth

/-- The per-cell width computation (inputParser.ts lines 229–254): normalize
the text, measure content and longest word, then resolve
`minWidth`/`wrappedWidth` by the cell's width mode. -/
def resolveCellWidths (ctx : Ctx) (cell : Cell) : Cell :=
  let text := normText cell.text
  let contentWidth := ctx.measure text cell.styles + ctx.padH cell.styles
  let longestWordWidth :=
    ctx.measure (ctx.splitWs (String.intercalate (" ") text)) cell.styles
  let minReadableWidth := longestWordWidth + ctx.padH cell.styles
  let base := { cell with
    text := TextVal.arr text
    contentWidth := contentWidth
    minReadableWidth := minReadableWidth }
  match cell.styles StyleKey.cellWidth with
  | some (.num w) => { base with minWidth := w, wrappedWidth := w }
  | some (.str s) =>
    if s = ("wrap") then
      { base with minWidth := contentWidth, wrappedWidth := contentWidth }
    else
      let minW := autoMinWidth ctx cell.styles
      { base with
        minWidth := minW
        wrappedWidth := if minW > contentWidth then minW else contentWidth }
  | none =>
    let minW := autoMinWidth ctx cell.styles
    { base with
      minWidth := minW
      wrappedWidth := if minW > contentWidth then minW else contentWidth }

/-- Replacing a cell under both its aliases in a row's cell map, modelling
in-place mutation of the shared cell object reached through either key. -/
def setBothKeys (cells : List (DataKey × Cell)) (dk : DataKey) (index : Nat)
    (cell : Cell) : List (DataKey × Cell) :=
  match cells with
  | [] => []
  | kv :: rest =>
    (if kv.1 = DataKey.idx index ∨ kv.1 = dk then (kv.1, cell) else kv) ::
      setBothKeys rest dk index cell

/-- The per-row width pass (inputParser.ts lines 224–256): for each column,
if the row has a cell there, run the `didParseCell` hooks and resolve its
widths. -/
def resolveRowWidths (ctx : Ctx) (hooks : List CellHook) :
    List Column → Row → Row
  | [], row => row
  | col :: rest, row =>
    match lookupA row.cells (DataKey.idx col.index) with
    | none => resolveRowWidths ctx hooks rest row
    | some cell =>
      let cell1 := applyHooks hooks cell row col
      let cell2 := resolveCellWidths ctx cell1
      resolveRowWidths ctx hooks rest
        { row with cells := setBothKeys row.cells col.dataKey col.index cell2 }

/-- One (row, column) step of the column aggregation pass (inputParser.ts
lines 258–300). -/
def aggRowCol (sp : StylesProps) (row : Row) (col : Column) : Column :=
  let cellOpt := lookupA row.cells (DataKey.idx col.index)
  let col1 :=
    match cellOpt with
    | some cell =>
      if cell.colSpan = 1 then
        { col with
          wrappedWidth := max col.wrappedWidth cell.wrappedWidth
          minWidth := max col.minWidth cell.minWidth
          minReadableWidth := max col.minReadableWidth cell.minReadableWidth }
      else
        match (lookupColumnStyles sp.columnStyles col) StyleKey.cellWidth with
        | some (.num w) =>
          if w ≠ 0 then { col with minWidth := w, wrappedWidth := w } else col
        | _ => col
    | none =>
      match (lookupColumnStyles sp.columnStyles col) StyleKey.cellWidth with
      | some (.num w) =>
        if w ≠ 0 then { col with minWidth := w, wrappedWidth := w } else col
      | _ => col
  match cellOpt with
  | some cell =>
    let col2 := if cell.colSpan > 1 ∧ col1.minWidth = 0 then
        { col1 with minWidth := cell.minWidth } else col1
    if cell.colSpan > 1 ∧ col2.wrappedWidth = 0 then
      { col2 with wrappedWidth := cell.minWidth } else col2
  | none => col1

/-- The column aggregation pass: every row updates every column in turn. -/
def aggregateColumns (sp : StylesProps) (rows : List Row)
    (cols : List Column) : List Column :=
  rows.foldl (fun cs row => cs.map (aggRowCol sp row)) cols

/-- Shallow embedding of `getStartY` and `isSamePageAsPreviousTable`
(inputParser.ts lines 119–136). -/
def getStartY (ctx : Ctx) (startY : StartYOpt) (marginTop : Rat) : Rat :=
  let resolved : StartYOpt :=
    match startY with
    | .num q => StartYOpt.num q
    | _ =>
      match ctx.previous with
      | some prev =>
        if prev.startPageNumber + prev.pageNumber - 1 = ctx.pageNumber then
          StartYOpt.num (prev.finalY + 20 / ctx.scaleFactor)
        else startY
      | none => startY
  match resolved with
  | .num q => if q = 0 then marginTop else q
  | _ => marginTop

/-- The resolved table model. -/
structure Table where
  startY : Rat
  themeName : String
  tableWidthOpt : TableWidthOpt
  margin : Margin
  styles : StylesProps
  columns : List Column
  head : List Row
  body : List Row
  foot : List Row
  minWidth : Rat
  wrappedWidth : Rat
  width : Rat

/-- Concatenation of the three sections, `table.allRows()`. -/
def Table.allRows (t : Table) : List Row := t.head ++ t.body ++ t.foot

/-- The cell a row holds for the column at a given table position,
`row.cells[column.index]`. -/
def cellAtIdx (row : Row) (index : Nat) : Option Cell :=
  lookupA row.cells (DataKey.idx index)

/-- Shallow embedding of `parseInput`/`parseContent` for one already-merged,
validated settings object: resolve the theme name, compute `startY`, resolve
columns, expand the three sections against the span ledger, run hooks and
the cell width pass, aggregate column widths, and fix the table widths
(inputParser.ts lines 31–117 and 160–301).  The deprecated-arguments
normalization, option-layer merging, input validation and HTML extraction
are external concerns the spec puts out of scope. -/
def parseTable (ctx : Ctx) (s : UserOptions) : Table :=
  let themeName := if s.theme = ("auto") then
      (if s.useCss then ("plain") else ("striped")) else s.theme
  let startY := getStartY ctx s.startY s.margin.top
  let cols := getTableColumns s
  let headRows := buildRows ctx s.stylesOpt themeName Section.head cols
    (sectionRowInputs s cols Section.head s.head) 0 []
  let bodyRows := buildRows ctx s.stylesOpt themeName Section.body cols
    (sectionRowInputs s cols Section.body s.body) 0 []
  let footRows := buildRows ctx s.stylesOpt themeName Section.foot cols
    (sectionRowInputs s cols Section.foot s.foot) 0 []
  let headR := headRows.map (resolveRowWidths ctx s.didParseCell cols)
  let bodyR := bodyRows.map (resolveRowWidths ctx s.didParseCell cols)
  let footR := footRows.map (resolveRowWidths ctx s.didParseCell cols)
  let colsAgg := aggregateColumns s.stylesOpt (headR ++ bodyR ++ footR) cols
  let minWidth := colsAgg.foldl (fun total col => total + col.minWidth) 0
  let wrappedWidth := colsAgg.foldl (fun total col => total + col.wrappedWidth) 0
  let width := match s.tableWidth with
    | .num q => q
    | .wrapMode => wrappedWidth
    | .autoMode => ctx.pageWidth - s.margin.left - s.margin.right
  ⟨startY, themeName, s.tableWidth, s.margin, s.stylesOpt, colsAgg,
    headR, bodyR, footR, minWidth, wrappedWidth, width⟩

/-! ## Basic lemmas about association lists and the style merge -/

theorem lookupA_setA_eq {α β : Type} [DecidableEq α] (m : List (α × β)) (k : α) (v : β) :
    lookupA (setA m k v) k = some v := by
  induction m with
  | nil => simp [lookupA, setA]
  | cons kv rest ih =>
    by_cases h : k = kv.1 <;> simp [lookupA, setA, h, ih]

theorem lookupA_setA_ne {α β : Type} [DecidableEq α] (m : List (α × β)) (k k2 : α) (v : β)
    (h : k2 ≠ k) : lookupA (setA m k v) k2 = lookupA m k2 := by
  induction m with
  | nil => simp [lookupA, setA, h]
  | cons kv rest ih =>
    by_cases hk : k = kv.1
    · subst hk
      simp [lookupA, setA, h]
    · by_cases hk2 : k2 = kv.1 <;> simp [lookupA, setA, hk, hk2, ih]

theorem setA_ne_nil {α β : Type} [DecidableEq α] (m : List (α × β)) (k : α) (v : β) :
    setA m k v ≠ [] := by
  cases m with
  | nil => simp [setA]
  | cons kv rest =>
    by_cases h : k = kv.1 <;> simp [setA, h]

theorem orE_assoc {α : Type} (a b c : Option α) : orE (orE a b) c = orE a (orE b c) := by
  cases a <;> cases b <;> rfl

/-! ## C10: table width totals -/

theorem foldl_add_eq_sum {f : Column → Rat} (l : List Column) (x : Rat) :
    l.foldl (fun total col => total + f col) x = x + (l.map f).sum := by
  induction l generalizing x with
  | nil => simp
  | cons c rest ih => simp [ih, add_assoc]

/-- C10: after column aggregation, `table.minWidth` is the sum of the
columns' `minWidth`, `table.wrappedWidth` the sum of their `wrappedWidth`,
and `table.width` is the numeric `tableWidth` setting when given, the
table's `wrappedWidth` under the `wrap` setting, and otherwise the page
width minus the horizontal margins. -/
theorem claim_C10_table_widths (ctx : Ctx) (s : UserOptions) :
    (parseTable ctx s).minWidth = ((parseTable ctx s).columns.map Column.minWidth).sum ∧
    (parseTable ctx s).wrappedWidth = ((parseTable ctx s).columns.map Column.wrappedWidth).sum ∧
    (parseTable ctx s).width =
      (match s.tableWidth with
       | .num q => q
       | .wrapMode => (parseTable ctx s).wrappedWidth
       | .autoMode => ctx.pageWidth - s.margin.left - s.margin.right) := by
  refine ⟨?_, ?_, ?_⟩ <;> simp only [parseTable, foldl_add_eq_sum, zero_add]

/-! ## C9: determinism of the resolution -/

/-- C9: resolving the same validated settings against two contexts whose
measurement function (and remaining collaborators) agree pointwise yields
structurally identical tables — the resolution is a deterministic function
of the settings and the measurement function. -/
theorem claim_C9_deterministic (c1 c2 : Ctx) (s : UserOptions)
    (hm : ∀ text st, c1.measure text st = c2.measure text st)
    (hsf : c1.scaleFactor = c2.scaleFactor)
    (hpw : c1.pageWidth = c2.pageWidth)
    (hpn : c1.pageNumber = c2.pageNumber)
    (hprev : c1.previous = c2.previous)
    (hpad : ∀ st, c1.padH st = c2.padH st)
    (hsplit : ∀ x, c1.splitWs x = c2.splitWs x)
    (hth : ∀ n, c1.getTheme n = c2.getTheme n)
    (hd : c1.defaultStyles = c2.defaultStyles) :
    parseTable c1 s = parseTable c2 s := by
  have : c1 = c2 := by
    cases c1
    cases c2
    simp only [Ctx.mk.injEq]
    exact ⟨funext fun t => funext fun st => hm t st, hsf, hpw, hpn, hprev,
      funext hpad, funext hsplit, funext hth, hd⟩
  rw [this]

/-! ## C4: the style cascade -/

/-- C4: the effective style produced for a cell is the shallow key-by-key
merge, in strictly increasing precedence, of the base default style, the
theme's table-wide style, the theme's section style, the user's global
styles, the user's section styles, then — body section on even 0-indexed
row indices only — the user's `alternateRowStyles` merged over the theme's
alternate-row style, and finally — body section only — the column style
looked up by `dataKey` first and numeric index second.  Stated pointwise:
for every style key the resolved value is the highest-precedence layer that
sets it. -/
theorem claim_C4_style_cascade (ctx : Ctx) (sp : StylesProps) (themeName : String)
    (sec : Section) (col : Column) (rowIndex : Nat) (k : StyleKey) :
    cellStyles ctx sp themeName sec col rowIndex k =
      orE (if sec = Section.body then lookupColumnStyles sp.columnStyles col k else none)
        (orE (if sec = Section.body ∧ rowIndex % 2 = 0 then
                orE (sp.alternateRowStyles k) ((ctx.getTheme themeName).alternateRow k)
              else none)
          (orE (sp.forSection sec k)
            (orE (sp.styles k)
              (orE ((ctx.getTheme themeName).forSection sec k)
                (orE ((ctx.getTheme themeName).table k)
                  (ctx.defaultStyles k)))))) := by
  by_cases hb : sec = Section.body
  · by_cases he : rowIndex % 2 = 0 <;>
      simp [cellStyles, assignL, assign2, emptyStyle, hb, he, List.foldl]
  · simp [cellStyles, assignL, assign2, emptyStyle, hb, List.foldl]

/-! ## Width resolution invariants (C5, C6) -/

/-- The width-mode contract of the cell width pass: fixed numeric widths set
both widths to the number; `wrap` sets both to the content width; otherwise
(`auto`) the minimum is the truthy explicit `minCellWidth` or the scaled
default floor, and the wrapped width is the content width raised to the
minimum. -/
def widthResolved (ctx : Ctx) (cell : Cell) : Prop :=
  match cell.styles StyleKey.cellWidth with
  | some (.num w) => cell.minWidth = w ∧ cell.wrappedWidth = w
  | some (.str s) =>
    if s = ("wrap") then
      cell.minWidth = cell.contentWidth ∧ cell.wrappedWidth = cell.contentWidth
    else
      cell.minWidth = autoMinWidth ctx cell.styles ∧
        cell.wrappedWidth = max cell.contentWidth cell.minWidth
  | none =>
    cell.minWidth = autoMinWidth ctx cell.styles ∧
      cell.wrappedWidth = max cell.contentWidth cell.minWidth

theorem if_gt_eq_max (a b : Rat) : (if b > a then b else a) = max a b := by
  rcases le_or_lt b a with h | h
  · rw [if_neg (not_lt.mpr h), max_eq_left h]
  · rw [if_pos h, max_eq_right h.le]

theorem resolveCellWidths_resolved (ctx : Ctx) (cell : Cell) :
    widthResolved ctx (resolveCellWidths ctx cell) := by
  rcases hcw : cell.styles StyleKey.cellWidth with _ | v
  · simp [widthResolved, resolveCellWidths, hcw, if_gt_eq_max]
  · rcases v with q | s
    · simp [widthResolved, resolveCellWidths, hcw]
    · by_cases hs : s = ("wrap") <;>
        simp [widthResolved, resolveCellWidths, hcw, hs, if_gt_eq_max]

theorem lookupA_setBothKeys (cells : List (DataKey × Cell)) (dk : DataKey)
    (i : Nat) (cell : Cell) (k : DataKey) :
    lookupA (setBothKeys cells dk i cell) k =
      if k = DataKey.idx i ∨ k = dk then (lookupA cells k).map (fun _ => cell)
      else lookupA cells k := by
  induction cells with
  | nil =>
    simp only [setBothKeys, lookupA]
    split <;> rfl
  | cons kv rest ih =>
    by_cases hc : kv.1 = DataKey.idx i ∨ kv.1 = dk
    · rw [setBothKeys, if_pos hc]
      by_cases hk : k = kv.1
      · rw [lookupA, if_pos hk, lookupA, if_pos hk]
        rw [if_pos (hk ▸ hc)]
        rfl
      · rw [lookupA, if_neg hk, lookupA, if_neg hk]
        exact ih
    · rw [setBothKeys, if_neg hc]
      by_cases hk : k = kv.1
      · rw [lookupA, if_pos hk, lookupA, if_pos hk]
        rw [if_neg (by rw [hk]; exact hc)]
      · rw [lookupA, if_neg hk, lookupA, if_neg hk]
        exact ih

theorem resolveRowWidths_lookup_none (ctx : Ctx) (hooks : List CellHook)
    (cols : List Column) (row : Row) (k : DataKey)
    (h : lookupA row.cells k = none) :
    lookupA (resolveRowWidths ctx hooks cols row).cells k = none := by
  induction cols generalizing row with
  | nil => exact h
  | cons col rest ih =>
    unfold resolveRowWidths
    rcases hc : lookupA row.cells (DataKey.idx col.index) with _ | cell
    · exact ih row h
    · refine ih _ ?_
      rw [lookupA_setBothKeys]
      split
      · rw [h]
        rfl
      · exact h

theorem resolveRowWidths_keeps_resolved (ctx : Ctx) (hooks : List CellHook)
    (cols : List Column) (row : Row) (idx : Nat)
    (h : ∀ c, lookupA row.cells (DataKey.idx idx) = some c → widthResolved ctx c) :
    ∀ c, lookupA (resolveRowWidths ctx hooks cols row).cells (DataKey.idx idx) = some c →
      widthResolved ctx c := by
  induction cols generalizing row with
  | nil => exact h
  | cons col rest ih =>
    unfold resolveRowWidths
    rcases hc : lookupA row.cells (DataKey.idx col.index) with _ | cell
    · exact ih row h
    · refine ih _ ?_
      intro c hlook
      rw [lookupA_setBothKeys] at hlook
      by_cases hcond : DataKey.idx idx = DataKey.idx col.index ∨ DataKey.idx idx = col.dataKey
      · rw [if_pos hcond] at hlook
        rcases hold : lookupA row.cells (DataKey.idx idx) with _ | c0
        · rw [hold] at hlook
          exact absurd hlook (by simp)
        · rw [hold] at hlook
          have : c = resolveCellWidths ctx (applyHooks hooks cell row col) := by
            simpa using hlook.symm
          rw [this]
          exact resolveCellWidths_resolved ctx _
      · rw [if_neg hcond] at hlook
        exact h c hlook

theorem resolveRowWidths_mem_resolved (ctx : Ctx) (hooks : List CellHook)
    (cols : List Column) (col : Column) (hmem : col ∈ cols) (row : Row) :
    ∀ c, lookupA (resolveRowWidths ctx hooks cols row).cells (DataKey.idx col.index) = some c →
      widthResolved ctx c := by
  induction cols generalizing row with
  | nil => exact absurd hmem (List.not_mem_nil col)
  | cons col0 rest ih =>
    rcases List.mem_cons.mp hmem with heq | hmem2
    · subst heq
      unfold resolveRowWidths
      rcases hc : lookupA row.cells (DataKey.idx col.index) with _ | cell
      · intro c hlook
        rw [resolveRowWidths_lookup_none ctx hooks rest row _ hc] at hlook
        exact absurd hlook (by simp)
      · refine resolveRowWidths_keeps_resolved ctx hooks rest _ _ ?_
        intro c hlook
        rw [lookupA_setBothKeys, if_pos (Or.inl rfl), hc] at hlook
        have : c = resolveCellWidths ctx (applyHooks hooks cell row col) := by
          simpa using hlook.symm
        rw [this]
        exact resolveCellWidths_resolved ctx _
    · unfold resolveRowWidths
      rcases hc : lookupA row.cells (DataKey.idx col0.index) with _ | cell
      · exact ih hmem2 row
      · exact ih hmem2 _

/-- Projections of one aggregation step: the column identity and position
are never changed, only widths are. -/
theorem aggRowCol_identity (sp : StylesProps) (row : Row) (col : Column) :
    (aggRowCol sp row col).index = col.index ∧
      (aggRowCol sp row col).dataKey = col.dataKey := by
  unfold aggRowCol
  rcases lookupA row.cells (DataKey.idx col.index) with _ | cell <;>
    dsimp only <;>
    constructor <;>
    repeat' first
      | rfl
      | split

theorem aggregateColumns_mem (sp : StylesProps) (rows : List Row)
    (cols : List Column) (col : Column) (hmem : col ∈ aggregateColumns sp rows cols) :
    ∃ col0 ∈ cols, col0.index = col.index ∧ col0.dataKey = col.dataKey := by
  induction rows generalizing cols with
  | nil => exact ⟨col, hmem, rfl, rfl⟩
  | cons r rest ih =>
    have := ih (cols.map (aggRowCol sp r)) hmem
    rcases this with ⟨col1, hcol1, hidx, hdk⟩
    rcases List.mem_map.mp hcol1 with ⟨col0, hcol0, heq⟩
    refine ⟨col0, hcol0, ?_, ?_⟩
    · rw [← hidx, ← heq, (aggRowCol_identity sp r col0).1]
    · rw [← hdk, ← heq, (aggRowCol_identity sp r col0).2]

/-- Every cell reachable at a column position in a parsed table satisfies
the width-mode contract. -/
theorem parseTable_cell_resolved (ctx : Ctx) (s : UserOptions) (row : Row)
    (col : Column) (cell : Cell)
    (hrow : row ∈ (parseTable ctx s).allRows)
    (hcol : col ∈ (parseTable ctx s).columns)
    (hcell : cellAtIdx row col.index = some cell) :
    widthResolved ctx cell := by
  simp only [parseTable, Table.allRows, List.mem_append] at hrow hcol
  have hcol2 := aggregateColumns_mem _ _ _ _ hcol
  rcases hcol2 with ⟨col0, hcol0, hidx, _⟩
  rw [← hidx] at hcell
  rcases hrow with (hrow | hrow) | hrow <;>
    rcases List.mem_map.mp hrow with ⟨row0, _, heq⟩ <;>
    rw [← heq] at hcell <;>
    exact resolveRowWidths_mem_resolved ctx s.didParseCell _ col0 hcol0 row0 cell hcell

/-! ## Concrete inputs used by counterexamples and witnesses -/

/-- A concrete deterministic context: text width is the total character
count, scale factor 1 (so the default minimum cell width is 10), no padding,
all theme styles empty. -/
def exCtx : Ctx where
  measure := fun lines _ => ((lines.foldl (fun a t => a + t.length) 0 : Nat) : Rat)
  scaleFactor := 1
  pageWidth := 200
  pageNumber := 1
  previous := none
  padH := fun _ => 0
  splitWs := fun t => t.splitOn (" ")
  getTheme := fun _ => ⟨emptyStyle, emptyStyle, emptyStyle, emptyStyle, emptyStyle⟩
  defaultStyles := emptyStyle

/-- Empty user style scopes. -/
def exStyles : StylesProps := ⟨emptyStyle, emptyStyle, emptyStyle, emptyStyle, emptyStyle, []⟩

/-- A base settings object with no content. -/
def exOpts : UserOptions where
  columns := none
  head := []
  body := []
  foot := []
  theme := ("plain")
  useCss := false
  tableWidth := TableWidthOpt.autoMode
  startY := StartYOpt.nothing
  margin := ⟨10, 10, 10, 10⟩
  stylesOpt := exStyles
  didParseCell := []

def fallbackRow : Row := ⟨RowInput.arr [], 0, Section.body, []⟩

def fallbackCol : Column := mkColumn (DataKey.idx 0) none 0

def fallbackCell : Cell := mkCell none emptyStyle Section.body

/-- Scenario-A-like settings: two array body rows over two inferred columns. -/
def exS : UserOptions :=
  { exOpts with body := [RowInput.arr [.scalar ("a"), .scalar ("b")],
    RowInput.arr [.scalar ("c"), .scalar ("d")]] }

def exRow0 : Row := (parseTable exCtx exS).body.getD 0 fallbackRow

def exCol0 : Column := (parseTable exCtx exS).columns.getD 0 fallbackCol

def exCell00 : Cell :=
  match cellAtIdx exRow0 0 with
  | some c => c
  | none => fallbackCell

/-! ## C5: the three width modes -/

/-- Settings whose global styles declare `minCellWidth: 0` — an explicitly
given minimum that JavaScript treats as falsy. -/
def c5s : UserOptions :=
  { exOpts with
    body := [RowInput.arr [.scalar ("ab")]]
    stylesOpt := { exStyles with
      styles := fun k => if k = StyleKey.minCellWidth then some (.num 0) else none } }

def c5row : Row := (parseTable exCtx c5s).body.getD 0 fallbackRow

def c5cell : Cell :=
  match cellAtIdx c5row 0 with
  | some c => c
  | none => fallbackCell

/-- C5 counterexample: a cell in `auto` width mode whose style explicitly
declares `minCellWidth = 0` does not get `minWidth = 0` as the claim's
"explicit `minCellWidth` if given" requires; the source uses JavaScript
truthiness (`cell.styles.minCellWidth || defaultMinWidth`), so the falsy
explicit 0 is replaced by the default floor `10 / scaleFactor = 10`. -/
theorem claim_C5_counterexample :
    c5cell.styles StyleKey.minCellWidth = some (StyleVal.num 0) ∧
    c5cell.styles StyleKey.cellWidth = none ∧
    c5cell.minWidth = 10 ∧ (10 : Rat) ≠ 0 := by
  refine ⟨by with_unfolding_all decide, by with_unfolding_all decide, by with_unfolding_all decide, by norm_num⟩

/-- C5 (amended): for every cell after the cell width pass: if its resolved
style's `cellWidth` is a number, `minWidth` and `wrappedWidth` both equal
that number; if it is the string `wrap`, both equal `contentWidth`;
otherwise (`auto`) `minWidth` is the style's explicit `minCellWidth` when
that value is truthy (nonzero), else `10 / scaleFactor`, and `wrappedWidth`
is `contentWidth` raised to `minWidth` when `contentWidth` is smaller. -/
theorem claim_C5_amended (ctx : Ctx) (s : UserOptions) (row : Row)
    (col : Column) (cell : Cell)
    (hrow : row ∈ (parseTable ctx s).allRows)
    (hcol : col ∈ (parseTable ctx s).columns)
    (hcell : cellAtIdx row col.index = some cell) :
    widthResolved ctx cell :=
  parseTable_cell_resolved ctx s row col cell hrow hcol hcell

/-- Witness for the amended C5 at a concrete table. -/
theorem claim_C5_witness :
    exRow0 ∈ (parseTable exCtx exS).allRows ∧
    exCol0 ∈ (parseTable exCtx exS).columns ∧
    cellAtIdx exRow0 exCol0.index = some exCell00 ∧
    widthResolved exCtx exCell00 :=
  ⟨by with_unfolding_all decide, by with_unfolding_all decide, by with_unfolding_all decide,
    claim_C5_amended exCtx exS exRow0 exCol0 exCell00 (by with_unfolding_all decide) (by with_unfolding_all decide) (by with_unfolding_all decide)⟩

/-! ## C6: minWidth is bounded by wrappedWidth -/

/-- C6: for every cell of a parsed table, `minWidth ≤ wrappedWidth` holds
after width resolution, in every width mode. -/
theorem claim_C6_min_le_wrapped (ctx : Ctx) (s : UserOptions) (row : Row)
    (col : Column) (cell : Cell)
    (hrow : row ∈ (parseTable ctx s).allRows)
    (hcol : col ∈ (parseTable ctx s).columns)
    (hcell : cellAtIdx row col.index = some cell) :
    cell.minWidth ≤ cell.wrappedWidth := by
  have h := parseTable_cell_resolved ctx s row col cell hrow hcol hcell
  unfold widthResolved at h
  split at h
  · rw [h.1, h.2]
  · split at h
    · rw [h.1, h.2]
    · rw [h.2]
      exact le_max_right _ _
  · rw [h.2]
    exact le_max_right _ _

/-- A second context, field-for-field the same as `exCtx`, used to run the
C9 determinism theorem on two separately constructed contexts. -/
def exCtxB : Ctx where
  measure := fun lines _ => ((lines.foldl (fun a t => a + t.length) 0 : Nat) : Rat)
  scaleFactor := 1
  pageWidth := 200
  pageNumber := 1
  previous := none
  padH := fun _ => 0
  splitWs := fun t => t.splitOn (" ")
  getTheme := fun _ => ⟨emptyStyle, emptyStyle, emptyStyle, emptyStyle, emptyStyle⟩
  defaultStyles := emptyStyle

/-- Witness for C9: two separately constructed contexts with pointwise-equal
collaborators resolve a concrete settings object to the same table. -/
theorem claim_C9_witness : parseTable exCtx exS = parseTable exCtxB exS :=
  claim_C9_deterministic exCtx exCtxB exS (fun _ _ => rfl) rfl rfl rfl rfl
    (fun _ => rfl) (fun _ => rfl) (fun _ => rfl) rfl

/-- Witness for C6 at a concrete table. -/
theorem claim_C6_witness :
    exRow0 ∈ (parseTable exCtx exS).allRows ∧
    exCol0 ∈ (parseTable exCtx exS).columns ∧
    cellAtIdx exRow0 exCol0.index = some exCell00 ∧
    exCell00.minWidth ≤ exCell00.wrappedWidth :=
  ⟨by with_unfolding_all decide, by with_unfolding_all decide, by with_unfolding_all decide,
    claim_C6_min_le_wrapped exCtx exS exRow0 exCol0 exCell00 (by with_unfolding_all decide) (by with_unfolding_all decide) (by with_unfolding_all decide)⟩

/-! ## C1: columnStyles cellWidth and the aggregation pass -/

theorem aggregateColumns_eq_map (sp : StylesProps) (rows : List Row) (cols : List Column) :
    aggregateColumns sp rows cols =
      cols.map (fun c => rows.foldl (fun c2 r => aggRowCol sp r c2) c) := by
  induction rows generalizing cols with
  | nil => simp [aggregateColumns]
  | cons r rest ih =>
    show aggregateColumns sp rest (cols.map (aggRowCol sp r)) = _
    rw [ih, List.map_map]
    rfl

theorem lookupColumnStyles_congr (cs : List (String × Style)) (c1 c2 : Column)
    (hdk : c1.dataKey = c2.dataKey) (hidx : c1.index = c2.index) :
    lookupColumnStyles cs c1 = lookupColumnStyles cs c2 := by
  unfold lookupColumnStyles
  rw [hdk, hidx]

/-- One aggregation step on a column with a fixed nonzero numeric
`columnStyles.cellWidth`, in a row that contributes no `colSpan = 1` cell to
it, sets both column widths to exactly that number. -/
theorem aggRowCol_fixed (sp : StylesProps) (r : Row) (col : Column) (w : Rat)
    (hw : lookupColumnStyles sp.columnStyles col StyleKey.cellWidth = some (StyleVal.num w))
    (hw0 : w ≠ 0)
    (hc : ∀ c, lookupA r.cells (DataKey.idx col.index) = some c → c.colSpan ≠ 1) :
    (aggRowCol sp r col).minWidth = w ∧ (aggRowCol sp r col).wrappedWidth = w := by
  unfold aggRowCol
  rcases hcell : lookupA r.cells (DataKey.idx col.index) with _ | c
  · simp [hcell, hw, hw0]
  · have hcs := hc c hcell
    simp [hcell, hw, hw0, hcs]

theorem agg_fold_identity (sp : StylesProps) (rows : List Row) (col : Column) :
    (rows.foldl (fun c r => aggRowCol sp r c) col).index = col.index ∧
      (rows.foldl (fun c r => aggRowCol sp r c) col).dataKey = col.dataKey := by
  induction rows generalizing col with
  | nil => exact ⟨rfl, rfl⟩
  | cons r rest ih =>
    have h1 := aggRowCol_identity sp r col
    have h2 := ih (aggRowCol sp r col)
    exact ⟨h2.1.trans h1.1, h2.2.trans h1.2⟩

/-- The fixed width, once established on a column with no `colSpan = 1`
cells, is preserved by the remaining aggregation steps. -/
theorem agg_fold_fixed (sp : StylesProps) (rows : List Row) (col : Column) (w : Rat)
    (hw : lookupColumnStyles sp.columnStyles col StyleKey.cellWidth = some (StyleVal.num w))
    (hw0 : w ≠ 0)
    (hspan : ∀ row ∈ rows, ∀ c, lookupA row.cells (DataKey.idx col.index) = some c →
      c.colSpan ≠ 1)
    (hcur : col.minWidth = w ∧ col.wrappedWidth = w) :
    (rows.foldl (fun c r => aggRowCol sp r c) col).minWidth = w ∧
      (rows.foldl (fun c r => aggRowCol sp r c) col).wrappedWidth = w := by
  induction rows generalizing col with
  | nil => exact hcur
  | cons r rest ih =>
    have hid := aggRowCol_identity sp r col
    have hstep := aggRowCol_fixed sp r col w hw hw0
      (hspan r (List.mem_cons_self r rest))
    refine ih (aggRowCol sp r col) ?_ ?_ hstep
    · rw [lookupColumnStyles_congr sp.columnStyles _ col hid.2 hid.1]
      exact hw
    · intro row hrow c hcell
      rw [hid.1] at hcell
      exact hspan row (List.mem_cons_of_mem r hrow) c hcell

/-- C1 (amended): if a column's `columnStyles` entry declares a fixed
nonzero numeric `cellWidth` and no row of the table contributes a
`colSpan = 1` cell to that column (the column is only touched by spanning
cells or by no cell at all), and the table has at least one row, then after
the column aggregation pass that column's `minWidth` and `wrappedWidth` are
exactly that number.  (As originally stated the override does not hold for
columns that do receive `colSpan = 1` cells: the style cascade applies
`columnStyles` only to body cells, so for example a head cell's measured
width still enters the aggregated maximum — see the counterexample.) -/
theorem claim_C1_amended (ctx : Ctx) (s : UserOptions) (col : Column) (w : Rat)
    (hcol : col ∈ (parseTable ctx s).columns)
    (hw : lookupColumnStyles s.stylesOpt.columnStyles col StyleKey.cellWidth =
      some (StyleVal.num w))
    (hw0 : w ≠ 0)
    (hspan : ∀ row ∈ (parseTable ctx s).allRows, ∀ c,
      cellAtIdx row col.index = some c → c.colSpan ≠ 1)
    (hne : (parseTable ctx s).allRows ≠ []) :
    col.minWidth = w ∧ col.wrappedWidth = w := by
  have hcols : (parseTable ctx s).columns =
      ((getTableColumns s).map
        (fun c => ((parseTable ctx s).allRows).foldl (fun c2 r => aggRowCol s.stylesOpt r c2) c)) := by
    exact aggregateColumns_eq_map s.stylesOpt _ _
  rw [hcols] at hcol
  rcases List.mem_map.mp hcol with ⟨col0, hmem0, heq⟩
  rcases hrows : (parseTable ctx s).allRows with _ | ⟨r0, rest⟩
  · exact absurd hrows hne
  · rw [hrows] at heq
    have hid0 := agg_fold_identity s.stylesOpt (r0 :: rest) col0
    rw [heq] at hid0
    have hw0c : lookupColumnStyles s.stylesOpt.columnStyles col0 StyleKey.cellWidth =
        some (StyleVal.num w) := by
      rw [lookupColumnStyles_congr s.stylesOpt.columnStyles col0 col hid0.2.symm hid0.1.symm]
      exact hw
    have hspan2 : ∀ row ∈ (r0 :: rest), ∀ c,
        lookupA row.cells (DataKey.idx col0.index) = some c → c.colSpan ≠ 1 := by
      intro row hrow c hcell
      rw [← hid0.1] at hcell
      exact hspan row (by rw [hrows]; exact hrow) c hcell
    have hid1 := aggRowCol_identity s.stylesOpt r0 col0
    have hstep := aggRowCol_fixed s.stylesOpt r0 col0 w hw0c hw0
      (hspan2 r0 (List.mem_cons_self r0 rest))
    have hrest := agg_fold_fixed s.stylesOpt rest (aggRowCol s.stylesOpt r0 col0) w
      (by rw [lookupColumnStyles_congr s.stylesOpt.columnStyles _ col0 hid1.2 hid1.1]
          exact hw0c)
      hw0
      (by intro row hrow c hcell
          rw [hid1.1] at hcell
          exact hspan2 row (List.mem_cons_of_mem r0 hrow) c hcell)
      hstep
    rw [← heq]
    exact hrest

/-- A style object declaring only `cellWidth: 40`. -/
def w40Style : Style := fun k => if k = StyleKey.cellWidth then some (.num 40) else none

/-- Settings for the C1 counterexample: one explicit column `x` with a
50-character header, one body row, and `columnStyles.x.cellWidth = 40`. -/
def c1s : UserOptions :=
  { exOpts with
    columns := some [ColumnInput.desc (some (.str ("x"))) none
      (some (.scalar (String.mk (List.replicate 50 ('H'))))) none]
    body := [RowInput.obj [(("x"), CellInput.scalar ("v"))]]
    stylesOpt := { exStyles with columnStyles := [(("x"), w40Style)] } }

def c1col : Column := (parseTable exCtx c1s).columns.getD 0 fallbackCol

/-- C1 counterexample: the column `x` declares a fixed numeric
`cellWidth = 40` in `columnStyles`, yet after the aggregation pass its
`wrappedWidth` is 50, the measured width of the synthesized head cell: the
style cascade applies `columnStyles` to body cells only, and the aggregation
pass applies the `columnStyles` override only to rows that contribute no
`colSpan = 1` cell, so the head cell's measured content width wins. -/
theorem claim_C1_counterexample :
    lookupColumnStyles c1s.stylesOpt.columnStyles c1col StyleKey.cellWidth =
      some (StyleVal.num 40) ∧
    c1col.wrappedWidth = 50 ∧ (50 : Rat) ≠ 40 :=
  ⟨by with_unfolding_all decide, by with_unfolding_all decide, by norm_num⟩

/-- Settings for the C1 witness: a single body row whose first cell spans
both inferred columns, so column 1 receives no cell; its
`columnStyles` (keyed by the positional identity `1`) fix its width at 40. -/
def c1ws : UserOptions :=
  { exOpts with
    body := [RowInput.arr [CellInput.rich (some ("Q")) (some 2) none none]]
    stylesOpt := { exStyles with columnStyles := [(("1"), w40Style)] } }

def c1wcol : Column := (parseTable exCtx c1ws).columns.getD 1 fallbackCol

def c1wrow : Row := (parseTable exCtx c1ws).allRows.getD 0 fallbackRow

/-- Witness for the amended C1 at a concrete table. -/
theorem claim_C1_witness : c1wcol.minWidth = 40 ∧ c1wcol.wrappedWidth = 40 := by
  refine claim_C1_amended exCtx c1ws c1wcol 40 ?_ ?_ ?_ ?_ ?_
  · with_unfolding_all decide
  · with_unfolding_all decide
  · norm_num
  · intro row hrow c hcell
    have hall : (parseTable exCtx c1ws).allRows = [c1wrow] := by
      with_unfolding_all decide
    rw [hall] at hrow
    rw [List.mem_singleton.mp hrow] at hcell
    have hnone : cellAtIdx c1wrow c1wcol.index = none := by
      with_unfolding_all decide
    rw [hnone] at hcell
    exact Option.noConfusion hcell
  · intro h
    have hall : (parseTable exCtx c1ws).allRows = [c1wrow] := by
      with_unfolding_all decide
    rw [hall] at h
    exact List.cons_ne_nil _ _ h

/-! ## Grid builder infrastructure (C2, C3) -/

/-- The span ledger holds no live row-span claim for column index `m`. -/
def ledgerClearAt (led : Ledger) (m : Nat) : Prop :=
  match lookupA led m with
  | some lt => lt.1 = 0
  | none => True

/-- A numeric `dataKey` only ever names the column's own index. -/
def dkOkB (col : Column) : Bool :=
  match col.dataKey with
  | .idx n => n = col.index
  | .str _ => true

/-- Well-formedness of a column list: table positions are pairwise distinct
and a numeric `dataKey` never aliases a different column's index (true of
every list `getTableColumns` produces from non-adversarial descriptors). -/
def wfCols (cols : List Column) : Prop :=
  cols.Pairwise (fun a b => a.index ≠ b.index) ∧ ∀ col ∈ cols, dkOkB col = true

instance (cols : List Column) : Decidable (wfCols cols) := by
  unfold wfCols
  infer_instance

theorem wfCols_dk {cols : List Column} (hwf : wfCols cols) :
    ∀ col ∈ cols, ∀ n, col.dataKey = DataKey.idx n → n = col.index := by
  intro col hc n hn
  have := hwf.2 col hc
  unfold dkOkB at this
  rw [hn] at this
  exact of_decide_eq_true this

/-- The state-independent raw value of a column in a row: array rows indexed
at the plain column index (valid when no spans shifted the counters), object
rows keyed by the column identity. -/
def rawPure (rawRow : RowInput) (col : Column) : Option CellInput :=
  match rawRow with
  | .arr l => getIntIdx l (col.index : Int)
  | .obj kv => lookupA kv (dkToString col.dataKey)

/-- The column span a raw cell value will give its cell. -/
def rawColSpan : Option CellInput → Int
  | some (.rich _ cs _ _) => cs.getD 1
  | _ => 1

/-- The row span a raw cell value will give its cell. -/
def rawRowSpan : Option CellInput → Int
  | some (.rich _ _ rs _) => rs.getD 1
  | _ => 1

theorem mkCell_colSpan (o : Option CellInput) (st : Style) (sec : Section) :
    (mkCell o st sec).colSpan = rawColSpan o := by
  rcases o with _ | c
  · rfl
  · rcases c with v | ⟨cnt, cs, rs, sty⟩ <;> rfl

theorem mkCell_rowSpan (o : Option CellInput) (st : Style) (sec : Section) :
    (mkCell o st sec).rowSpan = rawRowSpan o := by
  rcases o with _ | c
  · rfl
  · rcases c with v | ⟨cnt, cs, rs, sty⟩ <;> rfl

theorem rawCellLookup_pure (P : RowCtx) (col : Column) (st : RowState)
    (hadd : st.colSpansAdded = 0) (hskip : st.skipped = 0) :
    rawCellLookup P col st = rawPure P.rawRow col := by
  unfold rawCellLookup rawPure
  rcases P.rawRow with l | kv
  · rw [hadd, hskip]
    norm_num
  · rfl

theorem stepColumn_cells_ne (P : RowCtx) (col : Column) (st : RowState) (k : DataKey)
    (hk1 : k ≠ col.dataKey) (hk2 : k ≠ DataKey.idx col.index) :
    lookupA (stepColumn P col st).cells k = lookupA st.cells k := by
  unfold stepColumn stepClear
  split
  · split
    · split
      · simp [lookupA_setA_ne _ _ _ _ hk2, lookupA_setA_ne _ _ _ _ hk1]
      · rfl
    · rfl
  · split
    · simp [lookupA_setA_ne _ _ _ _ hk2, lookupA_setA_ne _ _ _ _ hk1]
    · rfl

theorem stepColumn_ledger_ne (P : RowCtx) (col : Column) (st : RowState) (m : Nat)
    (hm : m ≠ col.index) :
    lookupA (stepColumn P col st).ledger m = lookupA st.ledger m := by
  unfold stepColumn stepClear
  split
  · split
    · split
      · simp [lookupA_setA_ne _ _ _ _ hm]
      · rfl
    · simp [lookupA_setA_ne _ _ _ _ hm]
  · split
    · simp [lookupA_setA_ne _ _ _ _ hm]
    · rfl

theorem processColumns_cells_ne (P : RowCtx) (cols : List Column) (st : RowState)
    (k : DataKey)
    (h : ∀ col ∈ cols, k ≠ col.dataKey ∧ k ≠ DataKey.idx col.index) :
    lookupA (processColumns P cols st).cells k = lookupA st.cells k := by
  induction cols generalizing st with
  | nil => rfl
  | cons col rest ih =>
    have hh := h col (List.mem_cons_self col rest)
    rw [processColumns, ih _ (fun c hc => h c (List.mem_cons_of_mem col hc)),
      stepColumn_cells_ne P col st k hh.1 hh.2]

theorem processColumns_ledger_ne (P : RowCtx) (cols : List Column) (st : RowState)
    (m : Nat) (h : ∀ col ∈ cols, m ≠ col.index) :
    lookupA (processColumns P cols st).ledger m = lookupA st.ledger m := by
  induction cols generalizing st with
  | nil => rfl
  | cons col rest ih =>
    rw [processColumns, ih _ (fun c hc => h c (List.mem_cons_of_mem col hc)),
      stepColumn_ledger_ne P col st m (h col (List.mem_cons_self col rest))]

/-- The cell a clear `stepColumn` creates for a column. -/
def pCell (P : RowCtx) (col : Column) (st : RowState) : Cell :=
  mkCell (rawCellLookup P col st)
    (cellStyles P.ctx P.sp P.themeName P.sectionName col P.rowIndex) P.sectionName

theorem stepColumn_eq_stepClear (P : RowCtx) (col : Column) (st : RowState)
    (hcl : ledgerClearAt st.ledger col.index) :
    stepColumn P col st = stepClear P col st := by
  rcases hq : lookupA st.ledger col.index with _ | ⟨l, t⟩
  · unfold stepColumn
    simp only [hq]
  · unfold stepColumn
    simp only [hq]
    have hl : l = 0 := by
      unfold ledgerClearAt at hcl
      rw [hq] at hcl
      exact hcl
    rw [if_pos hl]

theorem stepClear_create (P : RowCtx) (col : Column) (st : RowState)
    (hcsl : st.columnSpansLeft = 0) :
    stepClear P col st =
      { st with
        cells := setA (setA st.cells col.dataKey (pCell P col st))
          (DataKey.idx col.index) (pCell P col st)
        columnSpansLeft := (pCell P col st).colSpan - 1
        ledger := setA st.ledger col.index
          ((pCell P col st).rowSpan - 1, (pCell P col st).colSpan - 1) } := by
  unfold stepClear pCell
  rw [if_pos hcsl]

/-- A fully clear row pass: when no span claims are active and all of the
row's raw values carry trivial spans, every column creates exactly the cell
of its state-independent raw value, and the ledger stays clear. -/
theorem pcPure (P : RowCtx) (cols : List Column) (st : RowState)
    (hwf : wfCols cols)
    (hclear : ∀ col ∈ cols, ledgerClearAt st.ledger col.index)
    (hcsl : st.columnSpansLeft = 0) (hadd : st.colSpansAdded = 0)
    (hskip : st.skipped = 0)
    (h1 : ∀ col ∈ cols, rawColSpan (rawPure P.rawRow col) = 1 ∧
      rawRowSpan (rawPure P.rawRow col) = 1) :
    (∀ col ∈ cols, lookupA (processColumns P cols st).cells (DataKey.idx col.index) =
      some (mkCell (rawPure P.rawRow col)
        (cellStyles P.ctx P.sp P.themeName P.sectionName col P.rowIndex) P.sectionName)) ∧
    (∀ col ∈ cols, ledgerClearAt (processColumns P cols st).ledger col.index) := by
  induction cols generalizing st with
  | nil =>
    exact ⟨fun col h => absurd h (List.not_mem_nil col),
      fun col h => absurd h (List.not_mem_nil col)⟩
  | cons col rest ih =>
    have hpw := List.pairwise_cons.mp hwf.1
    have hcell_eq : pCell P col st = mkCell (rawPure P.rawRow col)
        (cellStyles P.ctx P.sp P.themeName P.sectionName col P.rowIndex) P.sectionName := by
      unfold pCell
      rw [rawCellLookup_pure P col st hadd hskip]
    have hspans := h1 col (List.mem_cons_self col rest)
    have hcs : (pCell P col st).colSpan = 1 := by
      rw [hcell_eq, mkCell_colSpan, hspans.1]
    have hrs : (pCell P col st).rowSpan = 1 := by
      rw [hcell_eq, mkCell_rowSpan, hspans.2]
    have hstep : stepColumn P col st =
        { st with
          cells := setA (setA st.cells col.dataKey (pCell P col st))
            (DataKey.idx col.index) (pCell P col st)
          columnSpansLeft := (pCell P col st).colSpan - 1
          ledger := setA st.ledger col.index
            ((pCell P col st).rowSpan - 1, (pCell P col st).colSpan - 1) } := by
      rw [stepColumn_eq_stepClear P col st (hclear col (List.mem_cons_self col rest)),
        stepClear_create P col st hcsl]
    have hrest_keys : ∀ col2 ∈ rest,
        DataKey.idx col.index ≠ col2.dataKey ∧
          DataKey.idx col.index ≠ DataKey.idx col2.index := by
      intro col2 hc2
      constructor
      · intro hdk
        have := wfCols_dk hwf col2 (List.mem_cons_of_mem col hc2) col.index hdk.symm
        exact hpw.1 col2 hc2 this
      · intro hidx
        exact hpw.1 col2 hc2 (DataKey.idx.inj hidx)
    have hrest_idx : ∀ col2 ∈ rest, col.index ≠ col2.index :=
      fun col2 hc2 => hpw.1 col2 hc2
    have hwf2 : wfCols rest :=
      ⟨hpw.2, fun c hc => hwf.2 c (List.mem_cons_of_mem col hc)⟩
    have hclear2 : ∀ col2 ∈ rest,
        ledgerClearAt (stepColumn P col st).ledger col2.index := by
      intro col2 hc2
      rw [hstep]
      unfold ledgerClearAt
      rw [lookupA_setA_ne _ _ _ _ (fun h => hrest_idx col2 hc2 h.symm)]
      exact hclear col2 (List.mem_cons_of_mem col hc2)
    have hih := ih (stepColumn P col st) hwf2 hclear2
      (by rw [hstep]; show (pCell P col st).colSpan - 1 = 0; rw [hcs]; norm_num)
      (by rw [hstep]; exact hadd) (by rw [hstep]; exact hskip)
      (fun c hc => h1 c (List.mem_cons_of_mem col hc))
    constructor
    · intro c hc
      rcases List.mem_cons.mp hc with heq | hmem
      · subst heq
        simp only [processColumns]
        rw [processColumns_cells_ne P rest _ _ hrest_keys, hstep]
        simp only
        rw [lookupA_setA_eq]
        rw [hcell_eq]
      · simp only [processColumns]
        exact hih.1 c hmem
    · intro c hc
      rcases List.mem_cons.mp hc with heq | hmem
      · subst heq
        unfold ledgerClearAt
        simp only [processColumns]
        rw [processColumns_ledger_ne P rest _ _
          (fun c2 hc2 h => hrest_idx c2 hc2 h), hstep]
        simp only [lookupA_setA_eq]
        rw [hrs]
        norm_num
      · simp only [processColumns]
        exact hih.2 c hmem

/-- A section build in which every raw value carries trivial spans creates,
in every row, one cell per column, holding exactly the column's raw value. -/
theorem buildRows_pure (ctx : Ctx) (sp : StylesProps) (tn : String) (sec : Section)
    (cols : List Column) (rows : List RowInput) (idxStart : Nat) (led : Ledger)
    (hwf : wfCols cols)
    (hclear : ∀ col ∈ cols, ledgerClearAt led col.index)
    (h1 : ∀ raw ∈ rows, ∀ col ∈ cols,
      rawColSpan (rawPure raw col) = 1 ∧ rawRowSpan (rawPure raw col) = 1) :
    ∀ k row, (buildRows ctx sp tn sec cols rows idxStart led).get? k = some row →
      rows.get? k = some row.raw ∧ row.index = idxStart + k ∧
      ∀ col ∈ cols, cellAtIdx row col.index =
        some (mkCell (rawPure row.raw col) (cellStyles ctx sp tn sec col row.index) sec) := by
  induction rows generalizing idxStart led with
  | nil =>
    intro k row h
    simp [buildRows] at h
  | cons raw rest ih =>
    intro k row h
    have hp := pcPure ⟨ctx, sp, tn, sec, idxStart, raw⟩ cols ⟨led, [], 0, 0, 0⟩
      hwf hclear rfl rfl rfl
      (fun col hc => h1 raw (List.mem_cons_self raw rest) col hc)
    rcases k with _ | k
    · rw [buildRows] at h
      simp only [List.get?_cons_zero] at h
      rcases Option.some.inj h with heq
      refine ⟨?_, ?_, ?_⟩
      · rw [← heq]
        rfl
      · rw [← heq]
        rfl
      · intro col hc
        rw [← heq]
        exact hp.1 col hc
    · rw [buildRows] at h
      simp only [List.get?_cons_succ] at h
      have := ih (idxStart + 1) _ hp.2 (fun r hr => h1 r (List.mem_cons_of_mem raw hr))
        k row h
      refine ⟨this.1, ?_, this.2.2⟩
      rw [this.2.1]
      omega

/-! ## C2: missing cells -/

/-- C2 counterexample settings: two explicit columns `x`, `y` and one body
row that lacks the `y` key. -/
def c2s : UserOptions :=
  { exOpts with
    columns := some [ColumnInput.desc (some (.str ("x"))) none none none,
      ColumnInput.desc (some (.str ("y"))) none none none]
    body := [RowInput.obj [(("x"), CellInput.scalar ("v"))]] }

def c2row : Row := (parseTable exCtx c2s).body.getD 0 fallbackRow

def c2col : Column := (parseTable exCtx c2s).columns.getD 1 fallbackCol

/-- C2 counterexample: for the body row lacking the `y` key, a cell *is*
created under column `y` (the source constructs `new Cell(rawCell, ...)`
unconditionally, with `rawCell` undefined), and the aggregation pass does
not skip it: column `y` ends with the default minimum width 10 contributed
by that empty cell rather than staying at 0. -/
theorem claim_C2_counterexample :
    (cellAtIdx c2row c2col.index).isSome = true ∧ c2col.minWidth = 10 :=
  ⟨by with_unfolding_all decide, by with_unfolding_all decide⟩

/-- C2 (amended): in a section whose raw values all carry trivial spans,
a row that is shorter than the column list or lacks a column's key still
receives a created cell for that column — built from the missing
(`undefined`) raw value, hence with empty text and `colSpan = 1` — and the
column aggregation step for such a row takes the `colSpan = 1` maximum
branch (it does not skip the row). -/
theorem claim_C2_amended (ctx : Ctx) (sp : StylesProps) (tn : String)
    (sec : Section) (cols : List Column) (rows : List RowInput)
    (hwf : wfCols cols)
    (h1 : ∀ raw ∈ rows, ∀ col ∈ cols,
      rawColSpan (rawPure raw col) = 1 ∧ rawRowSpan (rawPure raw col) = 1)
    (k : Nat) (row : Row)
    (hrow : (buildRows ctx sp tn sec cols rows 0 []).get? k = some row)
    (col : Column) (hcol : col ∈ cols)
    (hmissing : rawPure row.raw col = none) :
    cellAtIdx row col.index =
      some (mkCell none (cellStyles ctx sp tn sec col row.index) sec) ∧
    (mkCell none (cellStyles ctx sp tn sec col row.index) sec).text = TextVal.s ("") ∧
    (mkCell none (cellStyles ctx sp tn sec col row.index) sec).colSpan = 1 ∧
    ∀ colx : Column, colx.index = col.index →
      aggRowCol sp row colx =
        { colx with
          wrappedWidth := max colx.wrappedWidth
            (mkCell none (cellStyles ctx sp tn sec col row.index) sec).wrappedWidth
          minWidth := max colx.minWidth
            (mkCell none (cellStyles ctx sp tn sec col row.index) sec).minWidth
          minReadableWidth := max colx.minReadableWidth
            (mkCell none (cellStyles ctx sp tn sec col row.index) sec).minReadableWidth } := by
  have hb := buildRows_pure ctx sp tn sec cols rows 0 []
    hwf (fun col hc => trivial) h1 k row hrow
  have hcell := hb.2.2 col hcol
  rw [hmissing] at hcell
  refine ⟨hcell, rfl, rfl, ?_⟩
  intro colx hx
  unfold aggRowCol
  rw [show DataKey.idx colx.index = DataKey.idx col.index by rw [hx]]
  unfold cellAtIdx at hcell
  rw [hcell]
  have hc1 : (mkCell none (cellStyles ctx sp tn sec col row.index) sec).colSpan = 1 := rfl
  simp only [hc1]
  norm_num

def c2cols : List Column := getTableColumns c2s

def c2colY : Column := c2cols.getD 1 fallbackCol

def c2brow : Row :=
  (buildRows exCtx c2s.stylesOpt ("plain") Section.body c2cols c2s.body 0 []).getD 0
    fallbackRow

/-- Witness for the amended C2 at a concrete table: the body row missing the
`y` key still gets a created empty cell under column `y`. -/
theorem claim_C2_witness :
    cellAtIdx c2brow c2colY.index =
      some (mkCell none
        (cellStyles exCtx c2s.stylesOpt ("plain") Section.body c2colY c2brow.index)
        Section.body) :=
  (claim_C2_amended exCtx c2s.stylesOpt ("plain") Section.body c2cols c2s.body
    (by with_unfolding_all decide) (by with_unfolding_all decide) 0 c2brow
    (by with_unfolding_all decide) c2colY (by with_unfolding_all decide)
    (by with_unfolding_all decide)).1

/-! ## Span bookkeeping lemmas (C3) -/

theorem wfCols_tail {col : Column} {rest : List Column}
    (hwf : wfCols (col :: rest)) : wfCols rest :=
  ⟨(List.pairwise_cons.mp hwf.1).2,
    fun c hc => hwf.2 c (List.mem_cons_of_mem col hc)⟩

theorem wfCols_head_idx {col : Column} {rest : List Column}
    (hwf : wfCols (col :: rest)) : ∀ col2 ∈ rest, col.index ≠ col2.index :=
  (List.pairwise_cons.mp hwf.1).1

theorem wfCols_head_keys {col : Column} {rest : List Column}
    (hwf : wfCols (col :: rest)) :
    ∀ col2 ∈ rest, DataKey.idx col.index ≠ col2.dataKey ∧
      DataKey.idx col.index ≠ DataKey.idx col2.index := by
  intro col2 hc2
  constructor
  · intro hdk
    exact wfCols_head_idx hwf col2 hc2
      (wfCols_dk hwf col2 (List.mem_cons_of_mem col hc2) col.index hdk.symm)
  · intro hidx
    exact wfCols_head_idx hwf col2 hc2 (DataKey.idx.inj hidx)

theorem stepClear_skip (P : RowCtx) (col : Column) (st : RowState)
    (hcsl : st.columnSpansLeft ≠ 0) :
    stepClear P col st =
      { st with
        columnSpansLeft := st.columnSpansLeft - 1
        colSpansAdded := st.colSpansAdded + 1 } := by
  unfold stepClear
  rw [if_neg hcsl]

theorem stepColumn_rowspan (P : RowCtx) (col : Column) (st : RowState)
    (l t : Int) (hled : lookupA st.ledger col.index = some (l, t)) (hl : l ≠ 0) :
    stepColumn P col st =
      { st with
        ledger := setA st.ledger col.index (l - 1, t)
        columnSpansLeft := t
        skipped := st.skipped + 1 } := by
  unfold stepColumn
  simp only [hled]
  rw [if_neg hl]

/-- The final cell the head column of a clear create step receives. -/
theorem head_create_lookup (P : RowCtx) (col : Column) (rest : List Column)
    (st : RowState) (hwf : wfCols (col :: rest))
    (hcl : ledgerClearAt st.ledger col.index) (hcsl : st.columnSpansLeft = 0) :
    lookupA (processColumns P (col :: rest) st).cells (DataKey.idx col.index) =
      some (pCell P col st) := by
  simp only [processColumns]
  rw [stepColumn_eq_stepClear P col st hcl, stepClear_create P col st hcsl,
    processColumns_cells_ne P rest _ _ (wfCols_head_keys hwf)]
  simp only
  rw [lookupA_setA_eq]

/-- The countdown run: processing columns with `columnSpansLeft = k`, a
clear ledger, and (final-state knowledge that) every created cell being
unspanned, the first `k` columns are skipped without writes and every later
column creates a cell. -/
theorem pcSkip (P : RowCtx) (cols : List Column) (st : RowState) (k : Int)
    (hwf : wfCols cols)
    (hclear : ∀ col ∈ cols, ledgerClearAt st.ledger col.index)
    (hcsl : st.columnSpansLeft = k) (hk : 0 ≤ k)
    (h1 : ∀ col ∈ cols, ∀ X,
      lookupA (processColumns P cols st).cells (DataKey.idx col.index) = some X →
      X.colSpan = 1 ∧ X.rowSpan = 1) :
    (∀ p col, cols.get? p = some col → (p : Int) < k →
      lookupA (processColumns P cols st).cells (DataKey.idx col.index) =
        lookupA st.cells (DataKey.idx col.index)) ∧
    (∀ p col, cols.get? p = some col → k ≤ (p : Int) →
      (lookupA (processColumns P cols st).cells (DataKey.idx col.index)).isSome = true) ∧
    (∀ col ∈ cols, ledgerClearAt (processColumns P cols st).ledger col.index) ∧
    (∀ p col, cols.get? p = some col → (p : Int) < k →
      lookupA (processColumns P cols st).ledger col.index =
        lookupA st.ledger col.index) := by
  induction cols generalizing st k with
  | nil =>
    refine ⟨?_, ?_, ?_, ?_⟩
    · intro p col hp
      simp at hp
    · intro p col hp
      simp at hp
    · intro col hc
      simp at hc
    · intro p col hp
      simp at hp
  | cons col rest ih =>
    have hclHead := hclear col (List.mem_cons_self col rest)
    by_cases hk0 : k = 0
    · -- the head column creates its cell
      subst hk0
      have hstep : stepColumn P col st = stepClear P col st :=
        stepColumn_eq_stepClear P col st hclHead
      have hcreate := stepClear_create P col st hcsl
      have hlookHead := head_create_lookup P col rest st hwf hclHead hcsl
      have hX := h1 col (List.mem_cons_self col rest) (pCell P col st) hlookHead
      have hcells1 : (stepColumn P col st).cells =
          setA (setA st.cells col.dataKey (pCell P col st)) (DataKey.idx col.index)
            (pCell P col st) := by
        rw [hstep, hcreate]
      have hled1 : (stepColumn P col st).ledger =
          setA st.ledger col.index
            ((pCell P col st).rowSpan - 1, (pCell P col st).colSpan - 1) := by
        rw [hstep, hcreate]
      have hcsl1 : (stepColumn P col st).columnSpansLeft = 0 := by
        rw [hstep, hcreate]
        show (pCell P col st).colSpan - 1 = 0
        rw [hX.1]
        norm_num
      have hclear1 : ∀ c2 ∈ rest, ledgerClearAt (stepColumn P col st).ledger c2.index := by
        intro c2 hc2
        unfold ledgerClearAt
        rw [hled1, lookupA_setA_ne _ _ _ _ (fun h => wfCols_head_idx hwf c2 hc2 h.symm)]
        exact hclear c2 (List.mem_cons_of_mem col hc2)
      have hih := ih (stepColumn P col st) 0 (wfCols_tail hwf) hclear1 hcsl1 le_rfl
        (fun c2 hc2 X hX2 => h1 c2 (List.mem_cons_of_mem col hc2) X
          (by simp only [processColumns]; exact hX2))
      refine ⟨?_, ?_, ?_, ?_⟩
      · intro p c hp hlt
        omega
      · intro p c hp hge
        rcases p with _ | p
        · rcases Option.some.inj hp with rfl
          rw [hlookHead]
          rfl
        · simp only [List.get?_cons_succ] at hp
          simp only [processColumns]
          exact hih.2.1 p c hp (by positivity)
      · intro c hc
        rcases List.mem_cons.mp hc with rfl | hmem
        · unfold ledgerClearAt
          simp only [processColumns]
          rw [processColumns_ledger_ne P rest _ _
            (fun c2 hc2 h => wfCols_head_idx hwf c2 hc2 h), hled1]
          simp only [lookupA_setA_eq]
          rw [hX.2]
          norm_num
        · simp only [processColumns]
          exact hih.2.2.1 c hmem
      · intro p c hp hlt
        omega
    · -- the head column consumes one column-span slot
      have hkpos : 0 < k := lt_of_le_of_ne hk (Ne.symm hk0)
      have hstep : stepColumn P col st =
          { st with
            columnSpansLeft := st.columnSpansLeft - 1
            colSpansAdded := st.colSpansAdded + 1 } := by
        rw [stepColumn_eq_stepClear P col st hclHead,
          stepClear_skip P col st (by rw [hcsl]; exact hk0)]
      have hcells1 : (stepColumn P col st).cells = st.cells := by rw [hstep]
      have hled1 : (stepColumn P col st).ledger = st.ledger := by rw [hstep]
      have hcsl1 : (stepColumn P col st).columnSpansLeft = k - 1 := by
        rw [hstep]
        show st.columnSpansLeft - 1 = k - 1
        rw [hcsl]
      have hclear1 : ∀ c2 ∈ rest, ledgerClearAt (stepColumn P col st).ledger c2.index := by
        intro c2 hc2
        rw [hled1]
        exact hclear c2 (List.mem_cons_of_mem col hc2)
      have hih := ih (stepColumn P col st) (k - 1) (wfCols_tail hwf) hclear1 hcsl1
        (by omega)
        (fun c2 hc2 X hX2 => h1 c2 (List.mem_cons_of_mem col hc2) X
          (by simp only [processColumns]; exact hX2))
      refine ⟨?_, ?_, ?_, ?_⟩
      · intro p c hp hlt
        rcases p with _ | p
        · rcases Option.some.inj hp with rfl
          simp only [processColumns]
          rw [processColumns_cells_ne P rest _ _ (wfCols_head_keys hwf), hcells1]
        · simp only [List.get?_cons_succ] at hp
          simp only [processColumns]
          rw [hih.1 p c hp (by push_cast at hlt ⊢; omega), hcells1]
      · intro p c hp hge
        rcases p with _ | p
        · exfalso
          omega
        · simp only [List.get?_cons_succ] at hp
          simp only [processColumns]
          exact hih.2.1 p c hp (by push_cast at hge ⊢; omega)
      · intro c hc
        rcases List.mem_cons.mp hc with rfl | hmem
        · unfold ledgerClearAt
          simp only [processColumns]
          rw [processColumns_ledger_ne P rest _ _
            (fun c2 hc2 h => wfCols_head_idx hwf c2 hc2 h), hled1]
          exact hclHead
        · simp only [processColumns]
          exact hih.2.2.1 c hmem
      · intro p c hp hlt
        rcases p with _ | p
        · rcases Option.some.inj hp with rfl
          simp only [processColumns]
          rw [processColumns_ledger_ne P rest _ _
            (fun c2 hc2 h => wfCols_head_idx hwf c2 hc2 h), hled1]
        · simp only [List.get?_cons_succ] at hp
          simp only [processColumns]
          rw [hih.2.2.2 p c hp (by push_cast at hlt ⊢; omega), hled1]

theorem wfCols_head_keys2 {col : Column} {rest : List Column}
    (hwf : wfCols (col :: rest)) :
    ∀ col2 ∈ rest, DataKey.idx col2.index ≠ col.dataKey ∧
      DataKey.idx col2.index ≠ DataKey.idx col.index := by
  intro c2 hc2
  constructor
  · intro h
    exact wfCols_head_idx hwf c2 hc2
      (wfCols_dk hwf col (List.mem_cons_self col rest) c2.index h.symm).symm
  · intro h
    exact wfCols_head_idx hwf c2 hc2 (DataKey.idx.inj h).symm

/-- The anchor row: a clear pass that creates, at position `j`, a cell with
row span `rn` and column span `cn` (every other created cell being
unspanned) leaves the `cn - 1` following positions without a cell, creates
a cell at position `j + cn` when it exists, seeds the ledger entry
`(rn - 1, cn - 1)` for the anchor column, and leaves every other ledger
entry clear. -/
theorem pcAnchor (P : RowCtx) (cols : List Column) (st : RowState) (j : Nat)
    (colJ : Column) (anchor : Cell) (rn cn : Nat)
    (hwf : wfCols cols)
    (hposJ : cols.get? j = some colJ)
    (hclear : ∀ col ∈ cols, ledgerClearAt st.ledger col.index)
    (hcsl : st.columnSpansLeft = 0)
    (hnone : ∀ col ∈ cols, lookupA st.cells (DataKey.idx col.index) = none)
    (hanchor : lookupA (processColumns P cols st).cells (DataKey.idx colJ.index) =
      some anchor)
    (hrn : anchor.rowSpan = (rn : Int)) (hcn : anchor.colSpan = (cn : Int))
    (hcn1 : 1 ≤ cn)
    (h1 : ∀ col ∈ cols, col.index ≠ colJ.index → ∀ X,
      lookupA (processColumns P cols st).cells (DataKey.idx col.index) = some X →
      X.colSpan = 1 ∧ X.rowSpan = 1) :
    (∀ p col, cols.get? p = some col → j < p → p < j + cn →
      lookupA (processColumns P cols st).cells (DataKey.idx col.index) = none) ∧
    (∀ col, cols.get? (j + cn) = some col →
      (lookupA (processColumns P cols st).cells (DataKey.idx col.index)).isSome = true) ∧
    (lookupA (processColumns P cols st).ledger colJ.index =
      some ((rn : Int) - 1, (cn : Int) - 1)) ∧
    (∀ col ∈ cols, col.index ≠ colJ.index →
      ledgerClearAt (processColumns P cols st).ledger col.index) := by
  induction j generalizing cols st with
  | zero =>
    rcases cols with _ | ⟨c0, rest⟩
    · simp at hposJ
    simp only [List.get?_cons_zero] at hposJ
    rcases Option.some.inj hposJ with rfl
    have hclHead := hclear c0 (List.mem_cons_self c0 rest)
    have hlookHead := head_create_lookup P c0 rest st hwf hclHead hcsl
    have hXa : pCell P c0 st = anchor := by
      have := hlookHead.symm.trans hanchor
      exact Option.some.inj this
    have hstep : stepColumn P c0 st = stepClear P c0 st :=
      stepColumn_eq_stepClear P c0 st hclHead
    have hcreate := stepClear_create P c0 st hcsl
    have hcells1 : (stepColumn P c0 st).cells =
        setA (setA st.cells c0.dataKey (pCell P c0 st)) (DataKey.idx c0.index)
          (pCell P c0 st) := by
      rw [hstep, hcreate]
    have hled1 : (stepColumn P c0 st).ledger =
        setA st.ledger c0.index
          ((pCell P c0 st).rowSpan - 1, (pCell P c0 st).colSpan - 1) := by
      rw [hstep, hcreate]
    have hcsl1 : (stepColumn P c0 st).columnSpansLeft = (cn : Int) - 1 := by
      rw [hstep, hcreate]
      show (pCell P c0 st).colSpan - 1 = (cn : Int) - 1
      rw [hXa, hcn]
    have hclear1 : ∀ c2 ∈ rest, ledgerClearAt (stepColumn P c0 st).ledger c2.index := by
      intro c2 hc2
      unfold ledgerClearAt
      rw [hled1, lookupA_setA_ne _ _ _ _ (fun h => wfCols_head_idx hwf c2 hc2 h.symm)]
      exact hclear c2 (List.mem_cons_of_mem c0 hc2)
    have hskip := pcSkip P rest (stepColumn P c0 st) ((cn : Int) - 1)
      (wfCols_tail hwf) hclear1 hcsl1 (by omega)
      (fun c2 hc2 X hX2 => h1 c2 (List.mem_cons_of_mem c0 hc2)
        (wfCols_head_idx hwf c2 hc2).symm X
        (by simp only [processColumns]; exact hX2))
    refine ⟨?_, ?_, ?_, ?_⟩
    · intro p c hp hjp hpc
      rcases p with _ | p
      · omega
      · simp only [List.get?_cons_succ] at hp
        have hkeys := wfCols_head_keys2 hwf c (List.get?_mem hp)
        simp only [processColumns]
        rw [hskip.1 p c hp (by omega), hcells1,
          lookupA_setA_ne _ _ _ _ hkeys.2, lookupA_setA_ne _ _ _ _ hkeys.1]
        exact hnone c (List.mem_cons_of_mem c0 (List.get?_mem hp))
    · intro c hp
      rcases hcnn : cn with _ | cn2
      · omega
      rw [hcnn] at hp
      simp only [Nat.zero_add, List.get?_cons_succ] at hp
      simp only [processColumns]
      refine hskip.2.1 cn2 c hp ?_
      rw [hcnn]
      push_cast
      omega
    · simp only [processColumns]
      rw [processColumns_ledger_ne P rest _ _
        (fun c2 hc2 h => wfCols_head_idx hwf c2 hc2 h), hled1]
      simp only [lookupA_setA_eq]
      rw [hXa, hrn, hcn]
    · intro c hc hne
      rcases List.mem_cons.mp hc with rfl | hmem
      · exact absurd rfl hne
      · simp only [processColumns]
        exact hskip.2.2.1 c hmem
  | succ j' ih =>
    rcases cols with _ | ⟨c0, rest⟩
    · simp at hposJ
    simp only [List.get?_cons_succ] at hposJ
    have hcolJmem : colJ ∈ rest := List.get?_mem hposJ
    have hc0ne : c0.index ≠ colJ.index := wfCols_head_idx hwf colJ hcolJmem
    have hclHead := hclear c0 (List.mem_cons_self c0 rest)
    have hlookHead := head_create_lookup P c0 rest st hwf hclHead hcsl
    have hX := h1 c0 (List.mem_cons_self c0 rest) hc0ne (pCell P c0 st) hlookHead
    have hstep : stepColumn P c0 st = stepClear P c0 st :=
      stepColumn_eq_stepClear P c0 st hclHead
    have hcreate := stepClear_create P c0 st hcsl
    have hcells1 : (stepColumn P c0 st).cells =
        setA (setA st.cells c0.dataKey (pCell P c0 st)) (DataKey.idx c0.index)
          (pCell P c0 st) := by
      rw [hstep, hcreate]
    have hled1 : (stepColumn P c0 st).ledger =
        setA st.ledger c0.index
          ((pCell P c0 st).rowSpan - 1, (pCell P c0 st).colSpan - 1) := by
      rw [hstep, hcreate]
    have hcsl1 : (stepColumn P c0 st).columnSpansLeft = 0 := by
      rw [hstep, hcreate]
      show (pCell P c0 st).colSpan - 1 = 0
      rw [hX.1]
      norm_num
    have hclear1 : ∀ c2 ∈ rest, ledgerClearAt (stepColumn P c0 st).ledger c2.index := by
      intro c2 hc2
      unfold ledgerClearAt
      rw [hled1, lookupA_setA_ne _ _ _ _ (fun h => wfCols_head_idx hwf c2 hc2 h.symm)]
      exact hclear c2 (List.mem_cons_of_mem c0 hc2)
    have hnone1 : ∀ c2 ∈ rest,
        lookupA (stepColumn P c0 st).cells (DataKey.idx c2.index) = none := by
      intro c2 hc2
      have hkeys := wfCols_head_keys2 hwf c2 hc2
      rw [hcells1, lookupA_setA_ne _ _ _ _ hkeys.2, lookupA_setA_ne _ _ _ _ hkeys.1]
      exact hnone c2 (List.mem_cons_of_mem c0 hc2)
    have hih := ih rest (stepColumn P c0 st) (wfCols_tail hwf) hposJ hclear1 hcsl1
      hnone1 (by simp only [processColumns] at hanchor; exact hanchor)
      (fun c2 hc2 hne X hX2 => h1 c2 (List.mem_cons_of_mem c0 hc2) hne X
        (by simp only [processColumns]; exact hX2))
    refine ⟨?_, ?_, ?_, ?_⟩
    · intro p c hp hjp hpc
      rcases p with _ | p
      · omega
      · simp only [List.get?_cons_succ] at hp
        simp only [processColumns]
        exact hih.1 p c hp (by omega) (by omega)
    · intro c hp
      simp only [show j' + 1 + cn = (j' + cn) + 1 by omega, List.get?_cons_succ] at hp
      simp only [processColumns]
      exact hih.2.1 c hp
    · simp only [processColumns]
      exact hih.2.2.1
    · intro c hc hne
      rcases List.mem_cons.mp hc with rfl | hmem
      · unfold ledgerClearAt
        simp only [processColumns]
        rw [processColumns_ledger_ne P rest _ _
          (fun c2 hc2 h => wfCols_head_idx hwf c2 hc2 h), hled1]
        simp only [lookupA_setA_eq]
        rw [hX.2]
        norm_num
      · simp only [processColumns]
        exact hih.2.2.2 c hmem hne

/-- A covered row: when the ledger holds a live row-span claim `(l, t)` for
the column at position `j` (`l ≠ 0`) and every created cell is unspanned,
positions `j .. j + t` receive no cell, the claim decrements to
`(l - 1, t)`, and every other ledger entry stays clear. -/
theorem pcCovered (P : RowCtx) (cols : List Column) (st : RowState) (j : Nat)
    (colJ : Column) (l t : Int)
    (hwf : wfCols cols)
    (hposJ : cols.get? j = some colJ)
    (hcsl : st.columnSpansLeft = 0)
    (hclearEx : ∀ col ∈ cols, col.index ≠ colJ.index →
      ledgerClearAt st.ledger col.index)
    (hledJ : lookupA st.ledger colJ.index = some (l, t))
    (hl : l ≠ 0) (ht : 0 ≤ t)
    (hnone : ∀ col ∈ cols, lookupA st.cells (DataKey.idx col.index) = none)
    (h1 : ∀ col ∈ cols, ∀ X,
      lookupA (processColumns P cols st).cells (DataKey.idx col.index) = some X →
      X.colSpan = 1 ∧ X.rowSpan = 1) :
    (∀ p col, cols.get? p = some col → j ≤ p → (p : Int) ≤ (j : Int) + t →
      lookupA (processColumns P cols st).cells (DataKey.idx col.index) = none) ∧
    (lookupA (processColumns P cols st).ledger colJ.index = some (l - 1, t)) ∧
    (∀ col ∈ cols, col.index ≠ colJ.index →
      ledgerClearAt (processColumns P cols st).ledger col.index) := by
  induction j generalizing cols st with
  | zero =>
    rcases cols with _ | ⟨c0, rest⟩
    · simp at hposJ
    simp only [List.get?_cons_zero] at hposJ
    rcases Option.some.inj hposJ with rfl
    have hstep := stepColumn_rowspan P c0 st l t hledJ hl
    have hcells1 : (stepColumn P c0 st).cells = st.cells := by rw [hstep]
    have hled1 : (stepColumn P c0 st).ledger =
        setA st.ledger c0.index (l - 1, t) := by rw [hstep]
    have hcsl1 : (stepColumn P c0 st).columnSpansLeft = t := by rw [hstep]
    have hclear1 : ∀ c2 ∈ rest, ledgerClearAt (stepColumn P c0 st).ledger c2.index := by
      intro c2 hc2
      unfold ledgerClearAt
      rw [hled1, lookupA_setA_ne _ _ _ _ (fun h => wfCols_head_idx hwf c2 hc2 h.symm)]
      exact hclearEx c2 (List.mem_cons_of_mem c0 hc2)
        (wfCols_head_idx hwf c2 hc2).symm
    have hskip := pcSkip P rest (stepColumn P c0 st) t
      (wfCols_tail hwf) hclear1 hcsl1 ht
      (fun c2 hc2 X hX2 => h1 c2 (List.mem_cons_of_mem c0 hc2) X
        (by simp only [processColumns]; exact hX2))
    refine ⟨?_, ?_, ?_⟩
    · intro p c hp hjp hpt
      rcases p with _ | p
      · simp only [List.get?_cons_zero] at hp
        rcases Option.some.inj hp with rfl
        simp only [processColumns]
        rw [processColumns_cells_ne P rest _ _ (wfCols_head_keys hwf), hcells1]
        exact hnone c0 (List.mem_cons_self c0 rest)
      · simp only [List.get?_cons_succ] at hp
        simp only [processColumns]
        rw [hskip.1 p c hp (by push_cast at hpt ⊢; omega), hcells1]
        exact hnone c (List.mem_cons_of_mem c0 (List.get?_mem hp))
    · simp only [processColumns]
      rw [processColumns_ledger_ne P rest _ _
        (fun c2 hc2 h => wfCols_head_idx hwf c2 hc2 h), hled1]
      simp only [lookupA_setA_eq]
    · intro c hc hne
      rcases List.mem_cons.mp hc with rfl | hmem
      · exact absurd rfl hne
      · simp only [processColumns]
        exact hskip.2.2.1 c hmem
  | succ j' ih =>
    rcases cols with _ | ⟨c0, rest⟩
    · simp at hposJ
    simp only [List.get?_cons_succ] at hposJ
    have hcolJmem : colJ ∈ rest := List.get?_mem hposJ
    have hc0ne : c0.index ≠ colJ.index := wfCols_head_idx hwf colJ hcolJmem
    have hclHead := hclearEx c0 (List.mem_cons_self c0 rest) hc0ne
    have hlookHead := head_create_lookup P c0 rest st hwf hclHead hcsl
    have hX := h1 c0 (List.mem_cons_self c0 rest) (pCell P c0 st) hlookHead
    have hstep : stepColumn P c0 st = stepClear P c0 st :=
      stepColumn_eq_stepClear P c0 st hclHead
    have hcreate := stepClear_create P c0 st hcsl
    have hcells1 : (stepColumn P c0 st).cells =
        setA (setA st.cells c0.dataKey (pCell P c0 st)) (DataKey.idx c0.index)
          (pCell P c0 st) := by
      rw [hstep, hcreate]
    have hled1 : (stepColumn P c0 st).ledger =
        setA st.ledger c0.index
          ((pCell P c0 st).rowSpan - 1, (pCell P c0 st).colSpan - 1) := by
      rw [hstep, hcreate]
    have hcsl1 : (stepColumn P c0 st).columnSpansLeft = 0 := by
      rw [hstep, hcreate]
      show (pCell P c0 st).colSpan - 1 = 0
      rw [hX.1]
      norm_num
    have hclear1 : ∀ c2 ∈ rest, c2.index ≠ colJ.index →
        ledgerClearAt (stepColumn P c0 st).ledger c2.index := by
      intro c2 hc2 hne
      unfold ledgerClearAt
      rw [hled1, lookupA_setA_ne _ _ _ _ (fun h => wfCols_head_idx hwf c2 hc2 h.symm)]
      exact hclearEx c2 (List.mem_cons_of_mem c0 hc2) hne
    have hledJ1 : lookupA (stepColumn P c0 st).ledger colJ.index = some (l, t) := by
      rw [hled1, lookupA_setA_ne _ _ _ _ (fun h => hc0ne h.symm)]
      exact hledJ
    have hnone1 : ∀ c2 ∈ rest,
        lookupA (stepColumn P c0 st).cells (DataKey.idx c2.index) = none := by
      intro c2 hc2
      have hkeys := wfCols_head_keys2 hwf c2 hc2
      rw [hcells1, lookupA_setA_ne _ _ _ _ hkeys.2, lookupA_setA_ne _ _ _ _ hkeys.1]
      exact hnone c2 (List.mem_cons_of_mem c0 hc2)
    have hih := ih rest (stepColumn P c0 st) (wfCols_tail hwf) hposJ hcsl1 hclear1
      hledJ1 hnone1
      (fun c2 hc2 X hX2 => h1 c2 (List.mem_cons_of_mem c0 hc2) X
        (by simp only [processColumns]; exact hX2))
    refine ⟨?_, ?_, ?_⟩
    · intro p c hp hjp hpt
      rcases p with _ | p
      · omega
      · simp only [List.get?_cons_succ] at hp
        simp only [processColumns]
        exact hih.1 p c hp (by omega) (by push_cast at hpt ⊢; omega)
    · simp only [processColumns]
      exact hih.2.1
    · intro c hc hne
      rcases List.mem_cons.mp hc with rfl | hmem
      · unfold ledgerClearAt
        simp only [processColumns]
        rw [processColumns_ledger_ne P rest _ _
          (fun c2 hc2 h => wfCols_head_idx hwf c2 hc2 h), hled1]
        simp only [lookupA_setA_eq]
        rw [hX.2]
        norm_num
      · simp only [processColumns]
        exact hih.2.2 c hmem hne

/-- Rows only hold cells at keys written for some column. -/
theorem buildRows_cellAt_none (ctx : Ctx) (sp : StylesProps) (tn : String)
    (sec : Section) (cols : List Column) (rows : List RowInput)
    (idxStart : Nat) (led : Ledger) (m : Nat)
    (h : ∀ col ∈ cols, DataKey.idx m ≠ col.dataKey ∧
      DataKey.idx m ≠ DataKey.idx col.index) :
    ∀ q row, (buildRows ctx sp tn sec cols rows idxStart led).get? q = some row →
      cellAtIdx row m = none := by
  induction rows generalizing idxStart led with
  | nil =>
    intro q row hq
    simp [buildRows] at hq
  | cons raw rest ih =>
    intro q row hq
    rcases q with _ | q
    · rw [buildRows] at hq
      simp only [List.get?_cons_zero] at hq
      rw [← Option.some.inj hq]
      show lookupA (processColumns _ cols _).cells (DataKey.idx m) = none
      rw [processColumns_cells_ne _ cols _ _ h]
      rfl
    · rw [buildRows] at hq
      simp only [List.get?_cons_succ] at hq
      exact ih (idxStart + 1) _ q row hq

/-- When no column sits at position `m` and positions equal indices, the key
`idx m` is written for no column. -/
theorem noCol_keys (cols : List Column) (hwf : wfCols cols)
    (hpos : ∀ p col, cols.get? p = some col → col.index = p)
    (m : Nat) (hm : cols.get? m = none) :
    ∀ col ∈ cols, DataKey.idx m ≠ col.dataKey ∧
      DataKey.idx m ≠ DataKey.idx col.index := by
  intro col hc
  obtain ⟨p, hp⟩ := List.mem_iff_get?.mp hc
  have hidx : col.index = p := hpos p col hp
  have hne : p ≠ m := by
    intro h
    rw [h] at hp
    rw [hp] at hm
    cases hm
  constructor
  · intro h
    have := wfCols_dk hwf col hc m h.symm
    rw [hidx] at this
    exact hne this.symm
  · intro h
    rw [hidx] at h
    exact hne (DataKey.idx.inj h).symm

/-- Rows beneath an anchor whose ledger claim is still live hold no cells in
the claimed column range. -/
theorem buildRowsCovered (ctx : Ctx) (sp : StylesProps) (tn : String)
    (sec : Section) (cols : List Column) (rows : List RowInput)
    (idxStart : Nat) (led : Ledger) (j : Nat) (colJ : Column) (l t : Int)
    (hwf : wfCols cols) (hposJ : cols.get? j = some colJ) (ht : 0 ≤ t)
    (hledJ : lookupA led colJ.index = some (l, t)) (hl0 : 0 ≤ l)
    (hclearEx : ∀ col ∈ cols, col.index ≠ colJ.index → ledgerClearAt led col.index)
    (h1 : ∀ q row, (buildRows ctx sp tn sec cols rows idxStart led).get? q = some row →
      ∀ col ∈ cols, ∀ X, cellAtIdx row col.index = some X →
        X.colSpan = 1 ∧ X.rowSpan = 1) :
    ∀ q row, (buildRows ctx sp tn sec cols rows idxStart led).get? q = some row →
      (q : Int) < l →
      ∀ p col, cols.get? p = some col → j ≤ p → (p : Int) ≤ (j : Int) + t →
        cellAtIdx row col.index = none := by
  induction rows generalizing idxStart led l with
  | nil =>
    intro q row hq
    simp [buildRows] at hq
  | cons raw rest ih =>
    intro q row hq hql p c hp hjp hpt
    by_cases hl : l = 0
    · omega
    · have hcov := pcCovered ⟨ctx, sp, tn, sec, idxStart, raw⟩ cols
        ⟨led, [], 0, 0, 0⟩ j colJ l t hwf hposJ rfl hclearEx hledJ hl ht
        (fun col hc => rfl)
        (fun col hc X hX => h1 0 ⟨raw, idxStart, sec,
          (processColumns ⟨ctx, sp, tn, sec, idxStart, raw⟩ cols ⟨led, [], 0, 0, 0⟩).cells⟩
          (by rw [buildRows]; rfl) col hc X hX)
      rcases q with _ | q
      · rw [buildRows] at hq
        simp only [List.get?_cons_zero] at hq
        rw [← Option.some.inj hq]
        exact hcov.1 p c hp hjp hpt
      · rw [buildRows] at hq
        simp only [List.get?_cons_succ] at hq
        exact ih (idxStart + 1) _ (l - 1) hcov.2.1 (by omega)
          hcov.2.2
          (fun q2 row2 hq2 col hc X hX => h1 (q2 + 1) row2
            (by rw [buildRows]; simp only [List.get?_cons_succ]; exact hq2) col hc X hX)
          q row hq (by push_cast at hql ⊢; omega) p c hp hjp hpt

/-- Span conservation over a section build, from any clear starting ledger:
an anchor cell with spans `(rn, cn)` at row `i`, column position `j`, all
other created cells being unspanned, claims rows `i+1 .. i+rn-1` over
columns `j .. j+cn-1` (no cell is created there), claims columns
`j+1 .. j+cn-1` of its own row, and the column at `j + cn` of row `i`, when
it exists, still receives its own cell. -/
theorem buildRowsSpanAux (ctx : Ctx) (sp : StylesProps) (tn : String) (sec : Section)
    (cols : List Column) (rows : List RowInput) (idxStart : Nat) (led : Ledger)
    (hwf : wfCols cols)
    (hpos : ∀ p col, cols.get? p = some col → col.index = p)
    (hclearAll : ∀ col ∈ cols, ledgerClearAt led col.index)
    (i j rn cn : Nat) (rowI : Row) (anchor : Cell)
    (hrowI : (buildRows ctx sp tn sec cols rows idxStart led).get? i = some rowI)
    (hanchor : cellAtIdx rowI j = some anchor)
    (hrn : anchor.rowSpan = (rn : Int)) (hcn : anchor.colSpan = (cn : Int))
    (hrn1 : 1 ≤ rn) (hcn1 : 1 ≤ cn)
    (honly : ∀ k row2,
      (buildRows ctx sp tn sec cols rows idxStart led).get? k = some row2 →
      ∀ m X, cellAtIdx row2 m = some X →
        (k = i ∧ m = j) ∨ (X.colSpan = 1 ∧ X.rowSpan = 1)) :
    (∀ k row2, (buildRows ctx sp tn sec cols rows idxStart led).get? k = some row2 →
      i < k → k < i + rn → ∀ m, j ≤ m → m < j + cn → cellAtIdx row2 m = none) ∧
    (∀ m, j < m → m < j + cn → cellAtIdx rowI m = none) ∧
    (∀ col, cols.get? (j + cn) = some col →
      (cellAtIdx rowI (j + cn)).isSome = true) := by
  induction rows generalizing idxStart led i with
  | nil => simp [buildRows] at hrowI
  | cons raw rest ih =>
    rcases i with _ | i2
    · rw [buildRows] at hrowI
      simp only [List.get?_cons_zero] at hrowI
      have hr0 : rowI = ⟨raw, idxStart, sec,
          (processColumns ⟨ctx, sp, tn, sec, idxStart, raw⟩ cols
            ⟨led, [], 0, 0, 0⟩).cells⟩ := (Option.some.inj hrowI).symm
      have h1r0get : (buildRows ctx sp tn sec cols (raw :: rest) idxStart led).get? 0 =
          some ⟨raw, idxStart, sec,
            (processColumns ⟨ctx, sp, tn, sec, idxStart, raw⟩ cols
              ⟨led, [], 0, 0, 0⟩).cells⟩ := by
        rw [buildRows]
        rfl
      rcases hj : cols.get? j with _ | colJ
      · exfalso
        have hnone : cellAtIdx rowI j = none := by
          rw [hr0]
          show lookupA (processColumns _ cols _).cells (DataKey.idx j) = none
          rw [processColumns_cells_ne _ cols _ _ (noCol_keys cols hwf hpos j hj)]
          rfl
        rw [hnone] at hanchor
        cases hanchor
      · have hidxJ : colJ.index = j := hpos j colJ hj
        have hanchor2 : lookupA (processColumns ⟨ctx, sp, tn, sec, idxStart, raw⟩ cols
            ⟨led, [], 0, 0, 0⟩).cells (DataKey.idx colJ.index) = some anchor := by
          rw [hidxJ]
          rw [hr0] at hanchor
          exact hanchor
        have hanch := pcAnchor ⟨ctx, sp, tn, sec, idxStart, raw⟩ cols
          ⟨led, [], 0, 0, 0⟩ j colJ anchor rn cn hwf hj hclearAll rfl
          (fun col hc => rfl) hanchor2 hrn hcn hcn1
          (fun col hc hne X hX => by
            rcases honly 0 _ h1r0get col.index X hX with ⟨_, hmj⟩ | h2
            · exact absurd (hmj.trans hidxJ.symm) hne
            · exact h2)
        refine ⟨?_, ?_, ?_⟩
        · intro k row2 hk hik hkrn m hjm hmcn
          rcases k with _ | k2
          · omega
          rw [buildRows] at hk
          simp only [List.get?_cons_succ] at hk
          rcases hm : cols.get? m with _ | colm
          · exact buildRows_cellAt_none ctx sp tn sec cols rest _ _ m
              (noCol_keys cols hwf hpos m hm) k2 row2 hk
          · have hidxm : colm.index = m := hpos m colm hm
            have hthis := buildRowsCovered ctx sp tn sec cols rest (idxStart + 1) _
              j colJ ((rn : Int) - 1) ((cn : Int) - 1) hwf hj (by omega)
              hanch.2.2.1 (by omega) hanch.2.2.2
              (fun q row3 hq col hc X hX => by
                rcases honly (q + 1) row3
                  (by rw [buildRows]; simp only [List.get?_cons_succ]; exact hq)
                  col.index X hX with ⟨h0, _⟩ | h2
                · exact absurd h0 (Nat.succ_ne_zero q)
                · exact h2)
              k2 row2 hk (by omega) m colm hm hjm
              (by omega)
            rw [hidxm] at hthis
            exact hthis
        · intro m hjm hmcn
          rcases hm : cols.get? m with _ | colm
          · rw [hr0]
            show lookupA (processColumns _ cols _).cells (DataKey.idx m) = none
            rw [processColumns_cells_ne _ cols _ _ (noCol_keys cols hwf hpos m hm)]
            rfl
          · have hidxm : colm.index = m := hpos m colm hm
            have hthis := hanch.1 m colm hm (by omega) (by omega)
            rw [hr0]
            show lookupA (processColumns _ cols _).cells (DataKey.idx m) = none
            rw [← hidxm]
            exact hthis
        · intro col hcol
          have hidxc : col.index = j + cn := hpos (j + cn) col hcol
          have hthis := hanch.2.1 col hcol
          rw [hr0]
          show (lookupA (processColumns _ cols _).cells (DataKey.idx (j + cn))).isSome = true
          rw [← hidxc]
          exact hthis
    · rw [buildRows] at hrowI
      simp only [List.get?_cons_succ] at hrowI
      have h1r0get : (buildRows ctx sp tn sec cols (raw :: rest) idxStart led).get? 0 =
          some ⟨raw, idxStart, sec,
            (processColumns ⟨ctx, sp, tn, sec, idxStart, raw⟩ cols
              ⟨led, [], 0, 0, 0⟩).cells⟩ := by
        rw [buildRows]
        rfl
      have h1r0 : ∀ col ∈ cols, ∀ X,
          lookupA (processColumns ⟨ctx, sp, tn, sec, idxStart, raw⟩ cols
            ⟨led, [], 0, 0, 0⟩).cells (DataKey.idx col.index) = some X →
          X.colSpan = 1 ∧ X.rowSpan = 1 := by
        intro col hc X hX
        rcases honly 0 _ h1r0get col.index X hX with ⟨h0, _⟩ | h2
        · exact absurd h0.symm (Nat.succ_ne_zero i2)
        · exact h2
      have hclear1 := (pcSkip ⟨ctx, sp, tn, sec, idxStart, raw⟩ cols
        ⟨led, [], 0, 0, 0⟩ 0 hwf hclearAll rfl le_rfl h1r0).2.2.1
      have hih := ih (idxStart + 1) _ hclear1 i2 hrowI
        (fun k row2 hk m X hX => by
          rcases honly (k + 1) row2
            (by rw [buildRows]; simp only [List.get?_cons_succ]; exact hk) m X hX with
            ⟨h0, hmj⟩ | h2
          · exact Or.inl ⟨Nat.succ.inj h0, hmj⟩
          · exact Or.inr h2)
      refine ⟨?_, hih.2.1, hih.2.2⟩
      intro k row2 hk hik hkrn m hjm hmcn
      rcases k with _ | k2
      · omega
      rw [buildRows] at hk
      simp only [List.get?_cons_succ] at hk
      exact hih.1 k2 row2 hk (by omega) (by omega) m hjm hmcn

/-- Decidable check that, apart from the anchor at row `i`, column index
`j`, every cell of the built section is unspanned. -/
def spanOnlyCheck (build : List Row) (cols : List Column) (i j : Nat) : Bool :=
  build.enum.all (fun kr =>
    cols.all (fun col =>
      match cellAtIdx kr.2 col.index with
      | some X => (decide (kr.1 = i) && decide (col.index = j)) ||
          (decide (X.colSpan = 1) && decide (X.rowSpan = 1))
      | none => true))

theorem honly_of_check (ctx : Ctx) (sp : StylesProps) (tn : String) (sec : Section)
    (cols : List Column) (rows : List RowInput) (idxStart : Nat) (led : Ledger)
    (hwf : wfCols cols)
    (hpos : ∀ p col, cols.get? p = some col → col.index = p)
    (i j : Nat)
    (h : spanOnlyCheck (buildRows ctx sp tn sec cols rows idxStart led) cols i j = true) :
    ∀ k row2, (buildRows ctx sp tn sec cols rows idxStart led).get? k = some row2 →
      ∀ m X, cellAtIdx row2 m = some X →
        (k = i ∧ m = j) ∨ (X.colSpan = 1 ∧ X.rowSpan = 1) := by
  intro k row2 hk m X hX
  rcases hm : cols.get? m with _ | colm
  · have hnone := buildRows_cellAt_none ctx sp tn sec cols rows idxStart led m
      (noCol_keys cols hwf hpos m hm) k row2 hk
    rw [hnone] at hX
    cases hX
  · have hidxm : colm.index = m := hpos m colm hm
    have hmem : (k, row2) ∈ (buildRows ctx sp tn sec cols rows idxStart led).enum :=
      List.mk_mem_enum_iff_getElem?.mpr (by rw [← List.get?_eq_getElem?]; exact hk)
    have hall := List.all_eq_true.mp h (k, row2) hmem
    have hcolall := List.all_eq_true.mp hall colm (List.get?_mem hm)
    simp only at hcolall
    rw [hidxm, hX] at hcolall
    simp only [Bool.or_eq_true, Bool.and_eq_true, decide_eq_true_eq] at hcolall
    rcases hcolall with ⟨hki, hmj⟩ | h2
    · exact Or.inl ⟨hki, hmj⟩
    · exact Or.inr h2

/-- C3 (amended): for every cell with `rowSpan = rn ≥ 1` and
`colSpan = cn ≥ 1` anchored at row `i` and column position `j` of a section
build, provided every *other* created cell of the section is unspanned
(`colSpan = rowSpan = 1` — with overlapping spans the ledger interactions
can both suppress the `j + cn` cell and re-enable columns inside the
anchor's span, see the counterexample): in rows `i+1 .. i+rn-1` no cell is
created for columns `j .. j+cn-1`; in row `i` itself the `cn - 1` columns
following `j` receive no independently created cell; and the column at
`j + cn`, when it exists, does receive its own cell. -/
theorem claim_C3_amended (ctx : Ctx) (sp : StylesProps) (tn : String) (sec : Section)
    (cols : List Column) (rows : List RowInput)
    (hwf : wfCols cols)
    (hpos : ∀ p col, cols.get? p = some col → col.index = p)
    (i j rn cn : Nat) (rowI : Row) (anchor : Cell)
    (hrowI : (buildRows ctx sp tn sec cols rows 0 []).get? i = some rowI)
    (hanchor : cellAtIdx rowI j = some anchor)
    (hrn : anchor.rowSpan = (rn : Int)) (hcn : anchor.colSpan = (cn : Int))
    (hrn1 : 1 ≤ rn) (hcn1 : 1 ≤ cn)
    (hcheck : spanOnlyCheck (buildRows ctx sp tn sec cols rows 0 []) cols i j = true) :
    (∀ k row2, (buildRows ctx sp tn sec cols rows 0 []).get? k = some row2 →
      i < k → k < i + rn → ∀ m, j ≤ m → m < j + cn → cellAtIdx row2 m = none) ∧
    (∀ m, j < m → m < j + cn → cellAtIdx rowI m = none) ∧
    (∀ col, cols.get? (j + cn) = some col →
      (cellAtIdx rowI (j + cn)).isSome = true) :=
  buildRowsSpanAux ctx sp tn sec cols rows 0 [] hwf hpos (fun col hc => trivial)
    i j rn cn rowI anchor hrowI hanchor hrn hcn hrn1 hcn1
    (honly_of_check ctx sp tn sec cols rows 0 [] hwf hpos i j hcheck)

/-- C3 counterexample settings: row 0 holds a `rowSpan: 2` cell in column 2;
row 1 anchors a `colSpan: 2` cell at column 0. -/
def c3s : UserOptions :=
  { exOpts with body := [
      RowInput.arr [.scalar ("a"), .scalar ("b"), .rich none none (some 2) none],
      RowInput.arr [.rich (some ("Q")) (some 2) none none, .scalar ("x")]] }

def c3row1 : Row := (parseTable exCtx c3s).body.getD 1 fallbackRow

def c3anchor : Cell :=
  match cellAtIdx c3row1 0 with
  | some c => c
  | none => fallbackCell

/-- C3 counterexample: the claim's final clause fails when spans overlap.
In row 1 a `colSpan = 2`, `rowSpan = 1` cell is anchored at column 0 of a
3-column table, so the claim demands that column `j + c = 2` receive its own
cell; but column 2 is claimed by the `rowSpan = 2` cell of row 0, and no
cell exists there. -/
theorem claim_C3_counterexample :
    cellAtIdx c3row1 0 = some c3anchor ∧
    c3anchor.colSpan = 2 ∧ c3anchor.rowSpan = 1 ∧
    (parseTable exCtx c3s).columns.length = 3 ∧
    cellAtIdx c3row1 2 = none :=
  ⟨by with_unfolding_all decide, by with_unfolding_all decide,
    by with_unfolding_all decide, by with_unfolding_all decide,
    by with_unfolding_all decide⟩

/-- C3 witness settings: a `colSpan: 2`, `rowSpan: 2` anchor at row 0,
column 0 of a 3-column section, every other cell unspanned. -/
def c3ws : UserOptions :=
  { exOpts with body := [
      RowInput.arr [CellInput.rich (some ("A")) (some 2) (some 2) none,
        CellInput.scalar ("c")],
      RowInput.arr [CellInput.scalar ("d")]] }

def c3wcols : List Column := getTableColumns c3ws

def c3wbuild : List Row :=
  buildRows exCtx c3ws.stylesOpt ("plain") Section.body c3wcols c3ws.body 0 []

def c3wrow0 : Row := c3wbuild.getD 0 fallbackRow

def c3wrow1 : Row := c3wbuild.getD 1 fallbackRow

def c3wanchor : Cell :=
  match cellAtIdx c3wrow0 0 with
  | some c => c
  | none => fallbackCell

/-- Witness for the amended C3 at a concrete table: the 2×2 anchor claims
row 1 columns 0 and 1 and row 0 column 1, while column 2 still receives its
own cells. -/
theorem claim_C3_witness :
    cellAtIdx c3wrow1 0 = none ∧ cellAtIdx c3wrow1 1 = none ∧
    cellAtIdx c3wrow0 1 = none ∧ (cellAtIdx c3wrow0 2).isSome = true := by
  have hpos2 : ∀ p col, c3wcols.get? p = some col → col.index = p := by
    have hlen : c3wcols = [mkColumn (DataKey.idx 0) none 0,
        mkColumn (DataKey.idx 1) none 1, mkColumn (DataKey.idx 2) none 2] := by
      with_unfolding_all decide
    intro p col hp
    rw [hlen] at hp
    rcases p with _ | _ | _ | p <;>
      simp only [List.get?_cons_zero, List.get?_cons_succ] at hp
    · rw [← Option.some.inj hp]
      rfl
    · rw [← Option.some.inj hp]
      rfl
    · rw [← Option.some.inj hp]
      rfl
    · simp at hp
  have h := claim_C3_amended exCtx c3ws.stylesOpt ("plain") Section.body c3wcols
    c3ws.body (by with_unfolding_all decide) hpos2 0 0 2 2 c3wrow0 c3wanchor
    (by with_unfolding_all decide) (by with_unfolding_all decide)
    (by with_unfolding_all decide) (by with_unfolding_all decide)
    (by norm_num) (by norm_num) (by with_unfolding_all decide)
  refine ⟨?_, ?_, ?_, ?_⟩
  · exact h.1 1 c3wrow1 (by with_unfolding_all decide) (by omega) (by omega) 0
      (by omega) (by omega)
  · exact h.1 1 c3wrow1 (by with_unfolding_all decide) (by omega) (by omega) 1
      (by omega) (by omega)
  · exact h.2.1 1 (by omega) (by omega)
  · exact h.2.2 (c3wcols.getD 2 fallbackCol) (by with_unfolding_all decide)

/-! ## C7: head/foot synthesis from column data -/

/-- Whether a column contributes a (truthy) value to a synthesized section
row: a truthy head value, or a truthy footer. -/
def contribB (sec : Section) (col : Column) : Bool :=
  match col.raw with
  | none => false
  | some ci =>
    match sec with
    | .head => cellInputTruthy (columnHeadVal ci)
    | .foot => (columnFootVal ci).isSome
    | .body => false

theorem setA_length_pos {α β : Type} [DecidableEq α] (m : List (α × β)) (k : α) (v : β) :
    0 < (setA m k v).length := by
  rcases h : setA m k v with _ | _
  · exact absurd h (setA_ne_nil m k v)
  · simp

theorem genSectionAux_len (sec : Section) (cols : List Column)
    (acc : List (String × CellInput)) :
    (genSectionAux sec cols acc).length > 0 ↔
      acc.length > 0 ∨ ∃ col ∈ cols, contribB sec col = true := by
  induction cols generalizing acc with
  | nil => simp [genSectionAux]
  | cons col rest ih =>
    rw [genSectionAux]
    rcases hraw : col.raw with _ | ci
    · simp only [hraw, ih, List.exists_mem_cons_iff, contribB]
      simp [hraw]
    · rcases sec with _ | _ | _
      · by_cases ht : cellInputTruthy (columnHeadVal ci) = true
        · simp only [hraw, ht, if_true, ih]
          constructor
          · intro _
            refine Or.inr ⟨col, List.mem_cons_self col rest, ?_⟩
            simp [contribB, hraw, ht]
          · intro _
            exact Or.inl (setA_length_pos acc _ _)
        · simp only [hraw, ht, if_false, ih, List.exists_mem_cons_iff]
          simp [contribB, hraw, ht]
      · simp only [hraw, ih, List.exists_mem_cons_iff]
        simp [contribB, hraw]
      · rcases hf : columnFootVal ci with _ | fv
        · simp only [hraw, hf, ih, List.exists_mem_cons_iff]
          simp [contribB, hraw, hf]
        · simp only [hraw, hf, ih]
          constructor
          · intro _
            refine Or.inr ⟨col, List.mem_cons_self col rest, ?_⟩
            simp [contribB, hraw, hf]
          · intro _
            exact Or.inl (setA_length_pos acc _ _)

theorem generateSectionRow_isSome (sec : Section) (cols : List Column) :
    (generateSectionRowFromColumnData cols sec).isSome = true ↔
      ∃ col ∈ cols, contribB sec col = true := by
  unfold generateSectionRowFromColumnData
  have hlen := genSectionAux_len sec cols []
  simp only [List.length_nil, gt_iff_lt, lt_self_iff_false, false_or] at hlen
  show (if (genSectionAux sec cols []).length > 0 then
    some (RowInput.obj (genSectionAux sec cols [])) else none).isSome = true ↔ _
  by_cases h : (genSectionAux sec cols []).length > 0
  · rw [if_pos h]
    simp only [Option.isSome_some, true_iff]
    exact hlen.mp h
  · rw [if_neg h]
    simp only [Option.isSome_none]
    constructor
    · intro hh
      cases hh
    · intro hh
      exact absurd (hlen.mpr hh) h

theorem buildRows_length (ctx : Ctx) (sp : StylesProps) (tn : String)
    (sec : Section) (cols : List Column) :
    ∀ rows idxStart led, (buildRows ctx sp tn sec cols rows idxStart led).length =
      rows.length := by
  intro rows
  induction rows with
  | nil => intro idxStart led; rfl
  | cons raw rest ih =>
    intro idxStart led
    rw [buildRows]
    simp only [List.length_cons, ih]

/-- Scenario-B settings: one explicit column `x` with header `X`, two keyed
body rows, no explicit head or foot. -/
def c7s : UserOptions :=
  { exOpts with
    columns := some [ColumnInput.desc (some (.str ("x"))) none
      (some (.scalar ("X"))) none]
    body := [RowInput.obj [(("x"), CellInput.scalar ("v1"))],
      RowInput.obj [(("x"), CellInput.scalar ("v2"))]] }

theorem sectionRowInputs_empty_syn (s : UserOptions) (cols : List Column)
    (sec : Section) (hsec : sec ≠ Section.body) :
    sectionRowInputs s cols sec [] =
      (match s.columns with
        | some _ =>
          (match generateSectionRowFromColumnData cols sec with
            | some r => [r]
            | none => [])
        | none => []) := by
  unfold sectionRowInputs
  rcases hc : s.columns with _ | cl
  · simp [hc, hsec]
  · simp [hc, hsec]

/-- C7 (amended): a head or foot row is synthesized from column metadata
exactly when that section has zero explicit rows, explicit column
descriptors exist, *and* at least one column contributes a truthy
header/footer value; a body row is never synthesized (the body always has
exactly as many rows as supplied); and with columns
`[{dataKey: "x", header: "X"}]` and no explicit head, the synthesized head
row has cell text `X` under column `x`. -/
theorem claim_C7_amended (ctx : Ctx) (s : UserOptions) :
    ((parseTable ctx s).body.length = s.body.length) ∧
    (s.head = [] → ((parseTable ctx s).head ≠ [] ↔
      s.columns.isSome = true ∧
        ∃ col ∈ getTableColumns s, contribB Section.head col = true)) ∧
    (s.foot = [] → ((parseTable ctx s).foot ≠ [] ↔
      s.columns.isSome = true ∧
        ∃ col ∈ getTableColumns s, contribB Section.foot col = true)) ∧
    ((parseTable exCtx c7s).head.length = 1 ∧
      (match cellAtIdx ((parseTable exCtx c7s).head.getD 0 fallbackRow) 0 with
        | some c => normText c.text
        | none => ([] : List String)) = [("X")]) := by
  refine ⟨?_, ?_, ?_, ?_, ?_⟩
  · simp only [parseTable, List.length_map,
      buildRows_length, sectionRowInputs]
    simp
  · intro hh
    simp only [parseTable, hh]
    rw [sectionRowInputs_empty_syn s (getTableColumns s) Section.head (by simp)]
    rcases hc : s.columns with _ | cl
    · simp [buildRows, hc]
    · rcases hgen : generateSectionRowFromColumnData (getTableColumns s)
        Section.head with _ | r
      · rw [← generateSectionRow_isSome]
        simp [buildRows, hgen, hc]
      · simp only [hgen, hc, Option.isSome_some, true_and]
        rw [← generateSectionRow_isSome, hgen]
        simp [buildRows]
  · intro hh
    simp only [parseTable, hh]
    rw [sectionRowInputs_empty_syn s (getTableColumns s) Section.foot (by simp)]
    rcases hc : s.columns with _ | cl
    · simp [buildRows, hc]
    · rcases hgen : generateSectionRowFromColumnData (getTableColumns s)
        Section.foot with _ | r
      · rw [← generateSectionRow_isSome]
        simp [buildRows, hgen, hc]
      · simp only [hgen, hc, Option.isSome_some, true_and]
        rw [← generateSectionRow_isSome, hgen]
        simp [buildRows]
  · with_unfolding_all decide
  · with_unfolding_all decide

/-- C7 counterexample: the foot section has zero explicit rows and explicit
column descriptors exist, yet no foot row is synthesized, because no column
declares a footer — contradicting the claim's "exactly when". -/
theorem claim_C7_counterexample :
    c7s.foot = [] ∧ c7s.columns.isSome = true ∧ (parseTable exCtx c7s).foot = [] :=
  ⟨rfl, rfl, by with_unfolding_all decide⟩

/-- Witness for the amended C7: at the Scenario-B settings, the head-side
equivalence fires and yields a synthesized head row. -/
theorem claim_C7_witness : (parseTable exCtx c7s).head ≠ [] :=
  ((claim_C7_amended exCtx c7s).2.1 rfl).mpr
    ⟨rfl, (getTableColumns c7s).getD 0 fallbackCol,
      by with_unfolding_all decide, by with_unfolding_all decide⟩

/-- The row that column inference reads:
`settings.head[0] || settings.body[0] || settings.foot[0] || []`. -/
def firstRowOf (s : UserOptions) : RowInput :=
  match s.head.head? with
  | some r => r
  | none => match s.body.head? with
    | some r => r
    | none => match s.foot.head? with
      | some r => r
      | none => RowInput.arr []

theorem getTableColumns_infer (s : UserOptions) (h : s.columns = none) :
    getTableColumns s = inferColumnsAux (firstRowOf s)
      ((rowInputKeys (firstRowOf s)).filter (fun k => k ≠ ("_element"))) 0 := by
  simp only [getTableColumns, h, firstRowOf]

theorem pushSiblings_length (isArr : Bool) (key : String) (fuel i count : Nat) :
    (pushSiblings isArr key fuel i count).length = fuel := by
  induction fuel generalizing i count with
  | zero => rfl
  | succ n ih => simp [pushSiblings, ih]

theorem range1_append (s m n : Nat) :
    List.range' s m ++ List.range' (s + m) n = List.range' s (m + n) := by
  have h := List.range'_append s m n 1
  rw [Nat.one_mul] at h
  rw [h, Nat.add_comm n m]

theorem pushSiblings_index (isArr : Bool) (key : String) (fuel i count : Nat) :
    (pushSiblings isArr key fuel i count).map Column.index =
      List.range' count fuel := by
  induction fuel generalizing i count with
  | zero => rfl
  | succ n ih =>
    rw [pushSiblings, List.range'_succ]
    simp [mkColumn, ih]

theorem inferColumnsAux_index (fr : RowInput) (keys : List String) (count : Nat) :
    (inferColumnsAux fr keys count).map Column.index =
      List.range' count (inferColumnsAux fr keys count).length := by
  induction keys generalizing count with
  | nil => rfl
  | cons k rest ih =>
    simp only [inferColumnsAux, List.map_append, List.length_append,
      pushSiblings_index, pushSiblings_length, ih]
    rw [range1_append]

/-- Sibling column identity suffixing: `key`, `key_1`, `key_2`, …. -/
def siblingName (key : String) (i : Nat) : String :=
  key ++ (if 0 < i then ("_") ++ toString i else (""))

theorem pushSiblings_dataKey_obj (key : String) (fuel i count : Nat) :
    (pushSiblings false key fuel i count).map Column.dataKey =
      (List.range fuel).map (fun j => DataKey.str (siblingName key (i + j))) := by
  induction fuel generalizing i count with
  | zero => rfl
  | succ n ih =>
    rw [pushSiblings, List.range_succ_eq_map]
    simp only [List.map_cons, List.map_map, ih, mkColumn]
    rw [List.cons_eq_cons]
    refine ⟨by simp [inferId, siblingName], ?_⟩
    refine List.map_congr_left (fun a _ => ?_)
    simp only [Function.comp]
    have : i + 1 + a = i + Nat.succ a := by omega
    rw [this]

theorem inferColumnsAux_dataKey_obj (kv : List (String × CellInput))
    (keys : List String) (count : Nat) :
    (inferColumnsAux (.obj kv) keys count).map Column.dataKey =
      keys.flatMap (fun k =>
        (List.range (inferColSpan (lookupA kv k)).toNat).map
          (fun i => DataKey.str (siblingName k i))) := by
  induction keys generalizing count with
  | nil => rfl
  | cons k rest ih =>
    simp only [inferColumnsAux, List.flatMap_cons, List.map_append,
      pushSiblings_dataKey_obj, ih, rowInputGet, Nat.zero_add]

theorem pushSiblings_dataKey_arr (key : String) (fuel i count : Nat) :
    (pushSiblings true key fuel i count).map Column.dataKey =
      (List.range' count fuel).map DataKey.idx := by
  induction fuel generalizing i count with
  | zero => rfl
  | succ n ih =>
    rw [pushSiblings, List.range'_succ]
    simp [mkColumn, inferId, ih]

theorem inferColumnsAux_dataKey_arr (l : List CellInput)
    (keys : List String) (count : Nat) :
    (inferColumnsAux (.arr l) keys count).map Column.dataKey =
      (List.range' count (inferColumnsAux (.arr l) keys count).length).map
        DataKey.idx := by
  induction keys generalizing count with
  | nil => rfl
  | cons k rest ih =>
    simp only [inferColumnsAux, List.map_append, List.length_append,
      pushSiblings_dataKey_arr, pushSiblings_length, ih]
    rw [← List.map_append, range1_append]

/-- C8 (amended): when no explicit columns are given, columns are inferred
from the first row of the first non-empty section (head before body before
foot), and column indices are always the consecutive output positions; for
an object-shaped first row one run of sibling columns is created per key
occurrence excluding `_element`, with identities `key`, `key_1`, `key_2`, …
and run length equal to the truthy colSpan of the first row's cell for that
key; for an array-shaped first row the identities are the consecutive
output column positions (one column per position only when no cell declares
a colSpan greater than 1). -/
theorem claim_C8_amended (s : UserOptions) (h : s.columns = none) :
    ((getTableColumns s).map Column.index =
      List.range (getTableColumns s).length) ∧
    (∀ kv, firstRowOf s = RowInput.obj kv →
      (getTableColumns s).map Column.dataKey =
        ((kv.map Prod.fst).filter (fun k => k ≠ ("_element"))).flatMap
          (fun k => (List.range (inferColSpan (lookupA kv k)).toNat).map
            (fun i => DataKey.str (siblingName k i)))) ∧
    (∀ l, firstRowOf s = RowInput.arr l →
      (getTableColumns s).map Column.dataKey =
        (List.range (getTableColumns s).length).map DataKey.idx) := by
  refine ⟨?_, ?_, ?_⟩
  · rw [getTableColumns_infer s h, inferColumnsAux_index, List.range_eq_range']
  · intro kv hkv
    rw [getTableColumns_infer s h, hkv]
    exact inferColumnsAux_dataKey_obj kv _ 0
  · intro l hl
    rw [getTableColumns_infer s h, hl, inferColumnsAux_dataKey_arr,
      List.range_eq_range']

/-- Settings with no explicit columns and an array-shaped first body row of
two positions, the first cell declaring `colSpan: 2`. -/
def c8s : UserOptions :=
  { exOpts with
    body := [RowInput.arr [CellInput.rich (some ("a")) (some 2) none none,
      CellInput.scalar ("b")]] }

/-- C8 counterexample: an array-shaped first row with two positions whose
first cell declares `colSpan: 2` yields three inferred columns with
identities 0, 1, 2 — not one column per array position as claimed. -/
theorem claim_C8_counterexample :
    c8s.columns = none ∧ c8s.head = [] ∧
    (match c8s.body.head? with
      | some (RowInput.arr l) => l.length
      | _ => 0) = 2 ∧
    (getTableColumns c8s).map Column.dataKey =
      [DataKey.idx 0, DataKey.idx 1, DataKey.idx 2] := by
  refine ⟨rfl, rfl, rfl, by with_unfolding_all decide⟩

/-- The object-shaped first row used to witness the amended C8. -/
def c8wkv : List (String × CellInput) :=
  [(("a"), CellInput.rich none (some 2) none none),
    (("b"), CellInput.scalar ("v"))]

def c8w : UserOptions := { exOpts with head := [RowInput.obj c8wkv] }

/-- Witness for the amended C8: an object-shaped head row with `a` spanning
two columns infers columns `a`, `a_1`, `b`. -/
theorem claim_C8_witness :
    (getTableColumns c8w).map Column.dataKey =
      [DataKey.str ("a"), DataKey.str ("a_1"), DataKey.str ("b")] := by
  rw [(claim_C8_amended c8w rfl).2.1 c8wkv rfl]
  with_unfolding_all decide

end AutoTable
